import Mathlib

/-!
# View service (`src/viewservice/server.go`)

A shallow embedding of the view state machine of the view service: the
`ViewServer` fields that the handlers read and write, the RPC handlers `Ping`
and `Get`, the periodic `tick`, and the helpers they call.

Modelling conventions.

* `vs.view` and `vs.newv` are Go pointers that may be nil: `Option View`.
  Dereferencing a nil pointer panics; a function in which that can happen
  returns `Option`, with `none` standing for the panic.
* `Viewnum` is a Go `uint` (64 bits): a `Nat` below `uintSize`, and the only
  arithmetic on it, `vs.view.Viewnum + 1` in `update_newv`, wraps around
  modulo `uintSize`.
* `pttl`, `bttl` and the idle ttls are Go `int`: `Int`.
* `idle_servers` is a Go map. It is modelled by an association list; assignment
  and deletion act on every entry with the given key, so the list always
  denotes a map. The order in which Go ranges over a map is unspecified, so
  `get_and_del` takes the index of the entry that the range yields first as an
  extra argument `pick`; properties are proved for every `pick`.
* `DeadPings` is a constant declared in a file that is not part of the sources
  at hand; it is a parameter of `Ping`.
* The mutex makes every handler atomic; a handler is a function on states.
-/

namespace ViewService

/-- The number of values of a Go `uint` on a 64-bit platform, `2 ^ 64`. -/
def uintSize : Nat := 18446744073709551616

/-- The view handed out by the service: a number (a Go `uint`, so a number below
`uintSize`), a primary and a backup (the empty string means that there is none). -/
structure View where
  Viewnum : Nat
  Primary : String
  Backup : String
deriving DecidableEq, Repr

/-- The fields of `ViewServer` that belong to the view state machine. -/
structure ViewServer where
  view : Option View
  newv : Option View
  packed : Bool
  pttl : Int
  bttl : Int
  idle_servers : List (String × Int)
deriving DecidableEq, Repr

/-- Go's `m[k] = v` on the association list. -/
def mapSet (m : List (String × Int)) (k : String) (v : Int) : List (String × Int) :=
  (k, v) :: m.filter (fun e => e.1 ≠ k)

/-- Go's `delete(m, k)` on the association list. -/
def mapDelete (m : List (String × Int)) (k : String) : List (String × Int) :=
  m.filter (fun e => e.1 ≠ k)

/-- The keys of the map. -/
def mapKeys (m : List (String × Int)) : List String :=
  m.map Prod.fst

/-- The state of a server returned by `StartServer`: no view, no pending view,
`packed` false, both ttls 0, an empty map of idle servers. -/
def StartServer : ViewServer :=
  { view := none, newv := none, packed := false, pttl := 0, bttl := 0, idle_servers := [] }

/-- The function `create_view`. -/
def create_view (viewno : Nat) (primary : String) (backup : String) : View :=
  { Viewnum := viewno, Primary := primary, Backup := backup }

/-- The handler `Get`: the current view, or view 0 when there is none. The
state is not touched, so only the reply is returned. -/
def Get (vs : ViewServer) : View :=
  match vs.view with
  | none => create_view 0 "" ""
  | some view => view

/-- The method `update_newv`. The sum `vs.view.Viewnum + 1` is a sum of Go `uint`s:
it wraps around to 0 at the largest value. -/
def update_newv (vs : ViewServer) (primary : String) (backup : String) : ViewServer :=
  match vs.view with
  | none => vs
  | some view =>
    match vs.newv with
    | none =>
      { vs with newv := some (create_view ((view.Viewnum + 1) % uintSize) primary backup) }
    | some newv => { vs with newv := some { newv with Primary := primary, Backup := backup } }

/-- The function `get_and_del`: the first server that the range yields is
deleted and returned; the empty string when the map is empty. `pick` selects
the entry that comes first. -/
def get_and_del (pick : Nat) (idle_servers : List (String × Int)) :
    String × List (String × Int) :=
  match idle_servers[pick % idle_servers.length]? with
  | none => ("", idle_servers)
  | some e => (e.1, mapDelete idle_servers e.1)

/-- The method `do_view_switch`: a pending view becomes the current one. -/
def do_view_switch (vs : ViewServer) : ViewServer × Bool :=
  match vs.newv with
  | some newv => ({ vs with view := some newv, newv := none }, true)
  | none => (vs, false)

/-- The method `switch_to_new_view`. It reads `vs.view.Backup` first, which
panics when there is no view. -/
def switch_to_new_view (pick : Nat) (vs : ViewServer) : Option (ViewServer × Bool) :=
  match vs.view with
  | none => none
  | some view =>
    if view.Backup = "" ∧ vs.idle_servers.length = 0 then
      some (vs, false)
    else if vs.pttl > 0 ∧ vs.bttl ≤ 0 then
      let r := get_and_del pick vs.idle_servers
      some (do_view_switch (update_newv { vs with idle_servers := r.2 } view.Primary r.1))
    else if vs.pttl ≤ 0 ∧ vs.bttl > 0 then
      let r := get_and_del pick vs.idle_servers
      some (do_view_switch (update_newv { vs with idle_servers := r.2 } view.Backup r.1))
    else if vs.pttl ≤ 0 ∧ vs.bttl ≤ 0 then
      some (do_view_switch (update_newv vs "" ""))
    else
      some (do_view_switch vs)

/-- The statement `if vs.packed && vs.switch_to_new_view() { vs.packed = false }`
shared by `Ping` and `tick`; `&&` does not evaluate its right side when
`packed` is false. -/
def switch_if_packed (pick : Nat) (vs : ViewServer) : Option ViewServer :=
  if vs.packed then
    (switch_to_new_view pick vs).map
      (fun r => if r.2 then { r.1 with packed := false } else r.1)
  else some vs

/-- The method `cleanup_extra_servers`: every idle server is visited once; one
whose ttl is at most 0 is deleted, any other has its ttl decremented. -/
def cleanup_extra_servers (vs : ViewServer) : ViewServer :=
  { vs with idle_servers :=
      vs.idle_servers.filterMap (fun e => if e.2 ≤ 0 then none else some (e.1, e.2 - 1)) }

/-- The first part of `Ping`, up to the comment `update TTLs`. -/
def Ping_handle (DeadPings : Int) (pick : Nat) (vs : ViewServer) (client : String)
    (viewno : Nat) : Option ViewServer :=
  if viewno = 0 then
    match vs.view with
    | none => some { vs with view := some (create_view 1 client "") }
    | some view =>
      (if client = view.Primary then
        switch_if_packed pick { vs with pttl := 0 }
      else some vs).bind fun vs1 =>
        vs1.view.bind fun view1 =>
          if client ≠ "" ∧ client ≠ view1.Backup then
            some { vs1 with idle_servers := mapSet vs1.idle_servers client DeadPings }
          else some vs1
  else
    vs.view.bind fun view =>
      if client = view.Primary then
        if viewno = view.Viewnum then
          let r := do_view_switch vs
          if r.2 then some { r.1 with packed := false }
          else some { r.1 with packed := true }
        else some vs
      else some vs

/-- The second part of `Ping`: the ttl of the caller is refreshed and the
current view is the reply. -/
def Ping_refresh (DeadPings : Int) (vs : ViewServer) (client : String) :
    Option (ViewServer × View) :=
  vs.view.bind fun view =>
    if client = view.Primary then
      some ({ vs with pttl := DeadPings }, view)
    else if client = view.Backup then
      some ({ vs with bttl := DeadPings }, view)
    else
      some ({ vs with idle_servers := mapSet vs.idle_servers client DeadPings }, view)

/-- The handler `Ping`: the state after the call and the view in the reply;
`none` when the handler panics on a nil view. -/
def Ping (DeadPings : Int) (pick : Nat) (vs : ViewServer) (client : String)
    (viewno : Nat) : Option (ViewServer × View) :=
  (Ping_handle DeadPings pick vs client viewno).bind fun vs1 =>
    Ping_refresh DeadPings vs1 client

/-- The last four statements of `tick`: the ttl of an empty role is set to 0,
then each of the two ttls is decremented when it is positive. -/
def tick_ttls (vs : ViewServer) (view : View) : ViewServer :=
  let pttl1 := if view.Primary = "" then 0 else vs.pttl
  let bttl1 := if view.Backup = "" then 0 else vs.bttl
  { vs with
    pttl := if pttl1 > 0 then pttl1 - 1 else pttl1,
    bttl := if bttl1 > 0 then bttl1 - 1 else bttl1 }

/-- The method `tick`. -/
def tick (pick : Nat) (vs : ViewServer) : Option ViewServer :=
  match vs.view with
  | none => some vs
  | some _ =>
    (switch_if_packed pick (cleanup_extra_servers vs)).bind fun vs1 =>
      vs1.view.bind fun view1 => some (tick_ttls vs1 view1)

/-- One operation on the server: a `Ping` RPC or a tick. -/
inductive Op where
  | ping (client : String) (viewno : Nat)
  | tick
deriving DecidableEq, Repr

/-- The state after one operation; `none` when the operation panics. -/
def step (DeadPings : Int) (pick : Nat) (vs : ViewServer) : Op → Option ViewServer
  | Op.ping client viewno => (Ping DeadPings pick vs client viewno).map Prod.fst
  | Op.tick => tick pick vs

/-- The states that a freshly started server reaches by operations that
complete. -/
inductive Reachable (DeadPings : Int) : ViewServer → Prop where
  | start : Reachable DeadPings StartServer
  | next (pick : Nat) (op : Op) (vs vs1 : ViewServer) :
      Reachable DeadPings vs → step DeadPings pick vs op = some vs1 → Reachable DeadPings vs1

/-- A run: the operations in order, each with the `pick` of its range. -/
def run (DeadPings : Int) (vs : ViewServer) : List (Nat × Op) → Option ViewServer
  | [] => some vs
  | (pick, op) :: rest => (step DeadPings pick vs op).bind fun vs1 => run DeadPings vs1 rest

/-- The invariant of the reachable states that the claims rest on: no view is
pending between two operations, `packed` is false while there is no view, and the
view number is a Go `uint`. -/
structure Inv (vs : ViewServer) : Prop where
  newv_none : vs.newv = none
  packed_false : vs.view = none → vs.packed = false
  viewnum_lt : ∀ view, vs.view = some view → view.Viewnum < uintSize

/-- The handler `Get` together with the state it leaves behind: it takes the lock,
reads `vs.view` and writes the reply only. -/
def Get_handler (vs : ViewServer) : ViewServer × View :=
  match vs.view with
  | none => (vs, create_view 0 "" "")
  | some view => (vs, view)

/-- The tick in the order in which claim C15 lists its steps: the idle pool is aged,
then each ttl is set to 0 for an empty role and otherwise decremented when positive,
then the transition is attempted with the ttls so obtained. -/
def tick_ttls_first (pick : Nat) (vs : ViewServer) : Option ViewServer :=
  match vs.view with
  | none => some vs
  | some view => switch_if_packed pick (tick_ttls (cleanup_extra_servers vs) view)

/-- The caller of the operation, if it has one, is not the empty string. -/
def Op.callerNonempty : Op → Prop
  | Op.ping client _ => client ≠ ""
  | Op.tick => True

instance (op : Op) : Decidable op.callerNonempty := by
  cases op <;> unfold Op.callerNonempty <;> infer_instance

/-- The states that a freshly started server reaches by operations that complete
and whose callers are all non-empty. -/
inductive ReachableNE (DeadPings : Int) : ViewServer → Prop where
  | start : ReachableNE DeadPings StartServer
  | next (pick : Nat) (op : Op) (vs vs1 : ViewServer) :
      ReachableNE DeadPings vs → op.callerNonempty →
      step DeadPings pick vs op = some vs1 → ReachableNE DeadPings vs1

/-- The invariant of the states reached with non-empty callers only: no view is
pending, the empty string is not idle, the backup is not idle, and `packed` is false
when the view has no primary. -/
structure InvNE (vs : ViewServer) : Prop where
  newv_none : vs.newv = none
  empty_not_idle : "" ∉ mapKeys vs.idle_servers
  backup_not_idle : ∀ view, vs.view = some view → view.Backup ∉ mapKeys vs.idle_servers
  dead_unpacked : ∀ view, vs.view = some view → view.Primary = "" → vs.packed = false

/-! ## Concrete states used in the examples -/

/-- The state after `Ping("A",0)`, `Ping("B",0)`, `Ping("A",1)` with `DeadPings = 5`:
view 1 is acknowledged by its primary and `"B"` is idle. -/
def exAcked : ViewServer :=
  { view := some ⟨1, "A", ""⟩, newv := none, packed := true, pttl := 5, bttl := 0,
    idle_servers := [("B", 5)] }

/-- The state that a tick reaches from `exAcked`: view 2 with `"B"` as backup. -/
def exCommitted : ViewServer :=
  { view := some ⟨2, "A", "B"⟩, newv := none, packed := false, pttl := 4, bttl := 0,
    idle_servers := [] }

/-- The state after `Ping("A",0)`, `Ping("B",0)` with `DeadPings = 5`: view 1 is not
acknowledged yet and `"B"` is idle. -/
def exPinged : ViewServer :=
  { view := some ⟨1, "A", ""⟩, newv := none, packed := false, pttl := 5, bttl := 0,
    idle_servers := [("B", 5)] }

/-- A state with view `{2, "A", "B"}` acknowledged, both roles alive and `"C"` idle. -/
def exBoth : ViewServer :=
  { view := some ⟨2, "A", "B"⟩, newv := none, packed := true, pttl := 5, bttl := 5,
    idle_servers := [("C", 5)] }

/-- A state with view `{2, "A", "B"}` acknowledged, the primary ttl at 0, the backup
alive and no idle server. -/
def exCrashed : ViewServer :=
  { view := some ⟨2, "A", "B"⟩, newv := none, packed := true, pttl := 0, bttl := 3,
    idle_servers := [] }

/-- A state with view `{2, "A", "B"}` acknowledged, both ttls at 0 and `"C"` idle. -/
def exBothDead : ViewServer :=
  { view := some ⟨2, "A", "B"⟩, newv := none, packed := true, pttl := 0, bttl := 0,
    idle_servers := [("C", 3)] }

/-- A state with view `{2, "A", "B"}` acknowledged, the primary ttl at 1, the backup
alive and no idle server. -/
def exLastTick : ViewServer :=
  { view := some ⟨2, "A", "B"⟩, newv := none, packed := true, pttl := 1, bttl := 3,
    idle_servers := [] }

/-- The state after `Ping("A",0)`, `Ping("B",0)`, `Ping("A",1)`, tick, `Ping("A",2)`,
`Ping("",0)`, `Ping("A",0)`, `Ping("",3)` with `DeadPings = 5`: the view has neither
primary nor backup, it is acknowledged by the empty caller, and `"A"` and the empty
string are idle. -/
def exDeadAcked : ViewServer :=
  { view := some ⟨3, "", ""⟩, newv := none, packed := true, pttl := 5, bttl := 0,
    idle_servers := [("A", 5), ("", 5)] }

/-- The state after `Ping("A",0)`, `Ping("B",0)`, `Ping("A",1)`, tick, `Ping("A",2)`,
`Ping("A",0)` with `DeadPings = 5`: the view has neither primary nor backup and `"A"`
is idle. -/
def exDead : ViewServer :=
  { view := some ⟨3, "", ""⟩, newv := none, packed := false, pttl := 0, bttl := 0,
    idle_servers := [("A", 5)] }

/-- The state, with `DeadPings = 5`, in which view `n` with primary `P` and backup `Q`
is acknowledged, both have just pinged, and `I` is the only idle server. -/
def exRot (n : Nat) (P Q I : String) : ViewServer :=
  { view := some ⟨n, P, Q⟩, newv := none, packed := true, pttl := 5, bttl := 5,
    idle_servers := [(I, 5)] }

/-- The three servers `"A"`, `"B"`, `"C"` in turn. -/
def rotName (i : Nat) : String :=
  if i % 3 = 0 then "A" else if i % 3 = 1 then "B" else "C"

/-- The state `exRot` at the largest view number, `uintSize - 1`. -/
def exWrap : ViewServer :=
  { view := some ⟨18446744073709551615, "B", "C"⟩, newv := none, packed := true, pttl := 5,
    bttl := 5, idle_servers := [("A", 5)] }

/-- The state after the restart `Ping("B",0)` in `exWrap`: the view number is 0. -/
def exWrapped : ViewServer :=
  { view := some ⟨0, "C", "A"⟩, newv := none, packed := false, pttl := 0, bttl := 5,
    idle_servers := [("B", 5)] }

/-- The state that `exWrap` reaches by a tick, a `Ping` of the backup `"C"` and four
more ticks: the primary ttl is 0, the backup ttl 1. -/
def exWrapCrashed : ViewServer :=
  { view := some ⟨18446744073709551615, "B", "C"⟩, newv := none, packed := true, pttl := 0,
    bttl := 1, idle_servers := [("A", 0)] }

/-- The state that `exWrap` reaches by five ticks: both ttls are 0. -/
def exWrapBothDead : ViewServer :=
  { view := some ⟨18446744073709551615, "B", "C"⟩, newv := none, packed := true, pttl := 0,
    bttl := 0, idle_servers := [("A", 0)] }

/-! ## The transition attempt and the two handlers, step by step -/

/-- What `switch_to_new_view` does when no view is pending, branch by branch. -/
theorem switch_to_new_view_eq (pick : Nat) (vs : ViewServer) (view : View)
    (hv : vs.view = some view) (hn : vs.newv = none) :
    switch_to_new_view pick vs =
      if view.Backup = "" ∧ vs.idle_servers = [] then some (vs, false)
      else if vs.pttl > 0 ∧ vs.bttl ≤ 0 then
        some ({ vs with
                view := some ⟨(view.Viewnum + 1) % uintSize, view.Primary,
                  (get_and_del pick vs.idle_servers).1⟩,
                idle_servers := (get_and_del pick vs.idle_servers).2 }, true)
      else if vs.pttl ≤ 0 ∧ vs.bttl > 0 then
        some ({ vs with
                view := some ⟨(view.Viewnum + 1) % uintSize, view.Backup,
                  (get_and_del pick vs.idle_servers).1⟩,
                idle_servers := (get_and_del pick vs.idle_servers).2 }, true)
      else if vs.pttl ≤ 0 ∧ vs.bttl ≤ 0 then
        some ({ vs with view := some ⟨(view.Viewnum + 1) % uintSize, "", ""⟩ }, true)
      else some (vs, false) := by
  cases vs
  simp only at hv hn
  subst hv hn
  simp only [switch_to_new_view, List.length_eq_zero]
  split_ifs <;> rfl

/-- A transition attempt with no pending view either leaves the state as it is
or installs a view numbered one higher; it never touches the flags and ttls. -/
theorem switch_to_new_view_summary (pick : Nat) (vs : ViewServer) (view : View)
    (hv : vs.view = some view) (hn : vs.newv = none) :
    ∃ r, switch_to_new_view pick vs = some r ∧ r.1.newv = none ∧ r.1.packed = vs.packed ∧
      r.1.pttl = vs.pttl ∧ r.1.bttl = vs.bttl ∧
      ((r.2 = false ∧ r.1 = vs) ∨
        (r.2 = true ∧ ∃ p b, r.1.view = some ⟨(view.Viewnum + 1) % uintSize, p, b⟩)) := by
  rw [switch_to_new_view_eq pick vs view hv hn]
  split_ifs <;> simp [hn]

/-- The guarded transition attempt of `Ping` and `tick`, when no view is pending. -/
theorem switch_if_packed_summary (pick : Nat) (vs : ViewServer) (view : View)
    (hv : vs.view = some view) (hn : vs.newv = none) :
    ∃ vs1, switch_if_packed pick vs = some vs1 ∧ vs1.newv = none ∧
      vs1.pttl = vs.pttl ∧ vs1.bttl = vs.bttl ∧
      (vs1 = vs ∨
        (vs.packed = true ∧ vs1.packed = false ∧
          ∃ p b, vs1.view = some ⟨(view.Viewnum + 1) % uintSize, p, b⟩)) := by
  obtain ⟨r, hr, h1, h2, h3, h4, h5⟩ := switch_to_new_view_summary pick vs view hv hn
  unfold switch_if_packed
  by_cases hp : vs.packed = true
  · rw [if_pos hp, hr]
    rcases h5 with ⟨hf, he⟩ | ⟨ht, p, b, he⟩
    · exact ⟨r.1, by simp [hf], h1, h3, h4, Or.inl he⟩
    · exact ⟨{ r.1 with packed := false }, by simp [ht], h1, h3, h4,
        Or.inr ⟨hp, rfl, p, b, he⟩⟩
  · rw [if_neg hp]
    exact ⟨vs, rfl, hn, rfl, rfl, Or.inl rfl⟩

/-- The second part of `Ping` replies with the current view and changes neither the
view nor `packed`. -/
theorem Ping_refresh_summary (d : Int) (vs vs1 : ViewServer) (c : String) (reply : View)
    (h : Ping_refresh d vs c = some (vs1, reply)) :
    vs.view = some reply ∧ vs1.view = vs.view ∧ vs1.newv = vs.newv ∧ vs1.packed = vs.packed := by
  unfold Ping_refresh at h
  cases hv : vs.view with
  | none => simp [hv] at h
  | some view =>
    simp only [hv, Option.some_bind] at h
    split_ifs at h <;> simp only [Option.some.injEq, Prod.mk.injEq] at h <;>
      obtain ⟨rfl, rfl⟩ := h <;> simp [hv]

/-- The effect of the first part of `Ping` on the view and on `packed`, when no
view is pending. -/
theorem Ping_handle_summary (d : Int) (pick : Nat) (vs vs1 : ViewServer) (c : String) (n : Nat)
    (hn : vs.newv = none) (h : Ping_handle d pick vs c n = some vs1) :
    vs1.newv = none ∧
    ((vs.view = none ∧ n = 0 ∧ vs1.view = some ⟨1, c, ""⟩ ∧ vs1.packed = vs.packed) ∨
      ∃ view, vs.view = some view ∧
        ((vs1.view = vs.view ∧
            (vs1.packed = vs.packed ∨
              (vs1.packed = true ∧ n ≠ 0 ∧ c = view.Primary ∧ n = view.Viewnum))) ∨
          (n = 0 ∧ c = view.Primary ∧ vs.packed = true ∧ vs1.packed = false ∧
            ∃ p b, vs1.view = some ⟨(view.Viewnum + 1) % uintSize, p, b⟩))) := by
  obtain ⟨view0, newv0, packed0, pttl0, bttl0, idle0⟩ := vs
  simp only at hn
  subst hn
  unfold Ping_handle at h
  by_cases h0 : n = 0
  · rw [if_pos h0] at h
    cases view0 with
    | none =>
      simp only [Option.some.injEq] at h
      subst h
      exact ⟨rfl, Or.inl ⟨rfl, h0, rfl, rfl⟩⟩
    | some view =>
      simp only at h
      -- the state after the restart check
      have key : ∃ vs2, (if c = view.Primary then
              switch_if_packed pick ⟨some view, none, packed0, 0, bttl0, idle0⟩
            else some ⟨some view, none, packed0, pttl0, bttl0, idle0⟩) = some vs2 ∧
          vs2.newv = none ∧
          ((vs2.view = some view ∧ vs2.packed = packed0) ∨
            (c = view.Primary ∧ packed0 = true ∧ vs2.packed = false ∧
              ∃ p b, vs2.view = some ⟨(view.Viewnum + 1) % uintSize, p, b⟩)) := by
        by_cases hc : c = view.Primary
        · rw [if_pos hc]
          obtain ⟨vs2, e, h1, -, -, h4⟩ :=
            switch_if_packed_summary pick ⟨some view, none, packed0, 0, bttl0, idle0⟩ view rfl rfl
          refine ⟨vs2, e, h1, ?_⟩
          rcases h4 with rfl | ⟨hp, hq, p, b, hw⟩
          · exact Or.inl ⟨rfl, rfl⟩
          · exact Or.inr ⟨hc, hp, hq, p, b, hw⟩
        · rw [if_neg hc]
          exact ⟨_, rfl, rfl, Or.inl ⟨rfl, rfl⟩⟩
      obtain ⟨vs2, e, h1, h2⟩ := key
      rw [e, Option.some_bind] at h
      have hv2 : ∃ view2, vs2.view = some view2 := by
        rcases h2 with ⟨hw, -⟩ | ⟨-, -, -, p, b, hw⟩
        · exact ⟨view, hw⟩
        · exact ⟨_, hw⟩
      obtain ⟨view2, hv2⟩ := hv2
      rw [hv2, Option.some_bind] at h
      have h3 : vs1.view = vs2.view ∧ vs1.newv = vs2.newv ∧ vs1.packed = vs2.packed := by
        split_ifs at h <;> simp only [Option.some.injEq] at h <;> subst h <;> simp [hv2]
      obtain ⟨e1, e2, e3⟩ := h3
      refine ⟨by rw [e2, h1], Or.inr ⟨view, rfl, ?_⟩⟩
      rcases h2 with ⟨hw, hp⟩ | ⟨hc, hp, hq, p, b, hw⟩
      · exact Or.inl ⟨by rw [e1, hw], Or.inl (by rw [e3, hp])⟩
      · exact Or.inr ⟨h0, hc, hp, by rw [e3, hq], p, b, by rw [e1, hw]⟩
  · rw [if_neg h0] at h
    cases view0 with
    | none => simp at h
    | some view =>
      simp only [Option.some_bind, do_view_switch] at h
      by_cases hc : c = view.Primary
      · by_cases hm : n = view.Viewnum
        · simp only [hc, hm, if_true, Bool.false_eq_true, if_false, Option.some.injEq] at h
          subst h
          exact ⟨rfl, Or.inr ⟨view, rfl, Or.inl ⟨rfl, Or.inr ⟨rfl, h0, hc, hm⟩⟩⟩⟩
        · simp only [hc, hm, if_true, if_false, Option.some.injEq] at h
          subst h
          exact ⟨rfl, Or.inr ⟨view, rfl, Or.inl ⟨rfl, Or.inl rfl⟩⟩⟩
      · simp only [hc, if_false, Option.some.injEq] at h
        subst h
        exact ⟨rfl, Or.inr ⟨view, rfl, Or.inl ⟨rfl, Or.inl rfl⟩⟩⟩

/-- The effect of `Ping` on the view and on `packed`, when no view is pending. -/
theorem Ping_summary (d : Int) (pick : Nat) (vs vs1 : ViewServer) (c : String) (n : Nat)
    (reply : View) (hn : vs.newv = none) (h : Ping d pick vs c n = some (vs1, reply)) :
    vs1.newv = none ∧ vs1.view = some reply ∧
    ((vs.view = none ∧ n = 0 ∧ reply = ⟨1, c, ""⟩ ∧ vs1.packed = vs.packed) ∨
      ∃ view, vs.view = some view ∧
        ((vs1.view = vs.view ∧
            (vs1.packed = vs.packed ∨
              (vs1.packed = true ∧ n ≠ 0 ∧ c = view.Primary ∧ n = view.Viewnum))) ∨
          (n = 0 ∧ c = view.Primary ∧ vs.packed = true ∧ vs1.packed = false ∧
            ∃ p b, reply = ⟨(view.Viewnum + 1) % uintSize, p, b⟩))) := by
  unfold Ping at h
  cases hh : Ping_handle d pick vs c n with
  | none => simp [hh] at h
  | some vs2 =>
    rw [hh, Option.some_bind] at h
    obtain ⟨a1, a2⟩ := Ping_handle_summary d pick vs vs2 c n hn hh
    obtain ⟨b1, b2, b3, b4⟩ := Ping_refresh_summary d vs2 vs1 c reply h
    refine ⟨by rw [b3, a1], by rw [b2, b1], ?_⟩
    rcases a2 with ⟨h1, h2, h3, h4⟩ | ⟨view, h1, h2⟩
    · refine Or.inl ⟨h1, h2, ?_, by rw [b4, h4]⟩
      rw [h3] at b1
      exact (Option.some.inj b1).symm
    · refine Or.inr ⟨view, h1, ?_⟩
      rcases h2 with ⟨h3, h4⟩ | ⟨h3, h4, h5, h6, p, b, h7⟩
      · refine Or.inl ⟨by rw [b2, h3], ?_⟩
        rw [b4]
        exact h4
      · refine Or.inr ⟨h3, h4, h5, by rw [b4, h6], p, b, ?_⟩
        rw [h7] at b1
        exact (Option.some.inj b1).symm

/-- The effect of `tick` on the view and on `packed`, when no view is pending;
`tick` always completes. -/
theorem tick_summary (pick : Nat) (vs : ViewServer) (hn : vs.newv = none) :
    ∃ vs1, tick pick vs = some vs1 ∧ vs1.newv = none ∧
      ((vs1.view = vs.view ∧ vs1.packed = vs.packed) ∨
        ∃ view, vs.view = some view ∧ vs.packed = true ∧ vs1.packed = false ∧
          ∃ p b, vs1.view = some ⟨(view.Viewnum + 1) % uintSize, p, b⟩) := by
  unfold tick
  cases hv : vs.view with
  | none => exact ⟨vs, rfl, hn, Or.inl ⟨hv, rfl⟩⟩
  | some view =>
    obtain ⟨vs2, e, h1, -, -, h4⟩ :=
      switch_if_packed_summary pick (cleanup_extra_servers vs) view hv hn
    simp only [e, Option.some_bind]
    have hv2 : ∃ view2, vs2.view = some view2 := by
      rcases h4 with rfl | ⟨-, -, p, b, hw⟩
      · exact ⟨view, hv⟩
      · exact ⟨_, hw⟩
    obtain ⟨view2, hv2⟩ := hv2
    simp only [hv2, Option.some_bind]
    refine ⟨_, rfl, h1, ?_⟩
    rcases h4 with rfl | ⟨hp, hq, p, b, hw⟩
    · exact Or.inl ⟨hv, rfl⟩
    · exact Or.inr ⟨view, rfl, hp, hq, p, b, hw⟩

/-- What one completed operation does to the view and to `packed`, from a state
that satisfies the invariant. Either the view stays (and `packed` stays too, or
is set by the primary acknowledging the current view), or the first view is
created, or a view numbered one higher is committed from a state in which
`packed` was true. -/
theorem step_summary (d : Int) (pick : Nat) (op : Op) (vs vs1 : ViewServer)
    (hi : Inv vs) (hs : step d pick vs op = some vs1) :
    Inv vs1 ∧
    ((vs1.view = vs.view ∧
        (vs1.packed = vs.packed ∨
          (vs1.packed = true ∧
            ∃ view, vs.view = some view ∧ op = Op.ping view.Primary view.Viewnum))) ∨
      (vs.view = none ∧ vs1.packed = false ∧ ∃ c, vs1.view = some ⟨1, c, ""⟩) ∨
      (∃ view p b, vs.view = some view ∧ vs.packed = true ∧ vs1.packed = false ∧
        vs1.view = some ⟨(view.Viewnum + 1) % uintSize, p, b⟩)) := by
  obtain ⟨hn, hp, hpos⟩ := hi
  cases op with
  | ping c n =>
    simp only [step, Option.map_eq_some', Prod.exists, exists_and_right, exists_eq_right] at hs
    obtain ⟨reply, hs⟩ := hs
    obtain ⟨a1, a2, a3⟩ := Ping_summary d pick vs vs1 c n reply hn hs
    rcases a3 with ⟨h1, h2, h3, h4⟩ | ⟨view, h1, ⟨h2, h3⟩ | ⟨h2, h3, h4, h5, p, b, h6⟩⟩
    · have hf : vs1.packed = false := by rw [h4]; exact hp h1
      refine ⟨⟨a1, ?_, ?_⟩, Or.inr (Or.inl ⟨h1, hf, c, by rw [a2, h3]⟩)⟩
      · intro _; exact hf
      · intro view hv
        rw [a2, h3] at hv
        rw [← Option.some.inj hv]
        show 1 < uintSize
        decide
    · refine ⟨⟨a1, ?_, ?_⟩, Or.inl ⟨h2, ?_⟩⟩
      · intro hv; rw [h2, h1] at hv; cases hv
      · intro w hw; rw [h2] at hw; exact hpos w hw
      · rcases h3 with h3 | ⟨h3, -, h4, h5⟩
        · exact Or.inl h3
        · exact Or.inr ⟨h3, view, h1, by rw [h4, h5]⟩
    · subst h6
      refine ⟨⟨a1, ?_, ?_⟩, Or.inr (Or.inr ⟨view, p, b, h1, h4, h5, a2⟩)⟩
      · intro hv; rw [a2] at hv; cases hv
      · intro w hw
        rw [a2] at hw
        rw [← Option.some.inj hw]
        exact Nat.mod_lt _ (by decide)
  | tick =>
    simp only [step] at hs
    obtain ⟨vs2, e, a1, a2⟩ := tick_summary pick vs hn
    rw [e] at hs
    cases Option.some.inj hs
    rcases a2 with ⟨h1, h2⟩ | ⟨view, h1, h2, h3, p, b, h4⟩
    · refine ⟨⟨a1, ?_, ?_⟩, Or.inl ⟨h1, Or.inl h2⟩⟩
      · intro hv; rw [h2]; exact hp (by rw [← h1]; exact hv)
      · intro w hw; rw [h1] at hw; exact hpos w hw
    · refine ⟨⟨a1, ?_, ?_⟩, Or.inr (Or.inr ⟨view, p, b, h1, h2, h3, h4⟩)⟩
      · intro hv; rw [h4] at hv; cases hv
      · intro w hw
        rw [h4] at hw
        rw [← Option.some.inj hw]
        exact Nat.mod_lt _ (by decide)

/-- Every reachable state satisfies the invariant. -/
theorem reachable_inv (d : Int) (vs : ViewServer) (hr : Reachable d vs) : Inv vs := by
  induction hr with
  | start => exact ⟨rfl, fun _ => rfl, fun view hv => by cases hv⟩
  | next pick op vs vs1 _ hs ih => exact (step_summary d pick op vs vs1 ih hs).1

/-- The end of a run that completes from a reachable state is reachable. -/
theorem reachable_run (d : Int) (ops : List (Nat × Op)) :
    ∀ vs vs1 : ViewServer, Reachable d vs → run d vs ops = some vs1 → Reachable d vs1 := by
  induction ops with
  | nil =>
    intro vs vs1 hr h
    cases Option.some.inj h
    exact hr
  | cons o rest ih =>
    intro vs vs1 hr h
    obtain ⟨pick, op⟩ := o
    simp only [run] at h
    cases hs : step d pick vs op with
    | none => simp [hs] at h
    | some vs2 =>
      rw [hs, Option.some_bind] at h
      exact ih vs2 vs1 (Reachable.next pick op vs vs2 hr hs) h

/-! ## The map of idle servers -/

/-- On an empty map `get_and_del` returns the empty string. -/
theorem get_and_del_nil (pick : Nat) : get_and_del pick [] = ("", []) := rfl

/-- On a non-empty map `get_and_del` returns one of its keys and deletes it. -/
theorem get_and_del_of_ne_nil (pick : Nat) (m : List (String × Int)) (hm : m ≠ []) :
    (get_and_del pick m).1 ∈ mapKeys m ∧
      (get_and_del pick m).2 = mapDelete m (get_and_del pick m).1 := by
  have hlt : pick % m.length < m.length :=
    Nat.mod_lt _ (List.length_pos.mpr hm)
  unfold get_and_del
  rw [List.getElem?_eq_getElem hlt]
  refine ⟨?_, rfl⟩
  exact List.mem_map_of_mem Prod.fst (List.getElem_mem hlt)

/-- The keys after a deletion. -/
theorem mem_mapKeys_mapDelete (m : List (String × Int)) (k k1 : String) :
    k1 ∈ mapKeys (mapDelete m k) ↔ k1 ∈ mapKeys m ∧ k1 ≠ k := by
  simp only [mapKeys, mapDelete, List.mem_map, List.mem_filter, decide_eq_true_eq,
    Prod.exists, exists_and_right, exists_eq_right]

/-- The keys after an assignment. -/
theorem mem_mapKeys_mapSet (m : List (String × Int)) (k k1 : String) (v : Int) :
    k1 ∈ mapKeys (mapSet m k v) ↔ k1 = k ∨ k1 ∈ mapKeys m := by
  have h := mem_mapKeys_mapDelete m k k1
  simp only [mapKeys, mapDelete] at h
  simp only [mapKeys, mapSet, List.map_cons, List.mem_cons, h]
  by_cases e : k1 = k <;> simp [e]

/-- The server that `get_and_del` returns is no longer a key afterwards. -/
theorem get_and_del_removed (pick : Nat) (m : List (String × Int)) (hm : m ≠ []) :
    (get_and_del pick m).1 ∉ mapKeys (get_and_del pick m).2 := by
  rw [(get_and_del_of_ne_nil pick m hm).2, mem_mapKeys_mapDelete]
  exact fun h => h.2 rfl

/-! ## How an operation changes the view -/

/-- The guarded transition attempt either does nothing or is an attempt made with
`packed` true that reports a change, after which `packed` is false. -/
theorem switch_if_packed_cases (pick : Nat) (vs : ViewServer) (view : View)
    (hv : vs.view = some view) (hn : vs.newv = none) :
    ∃ vs1, switch_if_packed pick vs = some vs1 ∧
      (vs1 = vs ∨
        (vs.packed = true ∧
          ∃ r, switch_to_new_view pick vs = some (r, true) ∧ vs1 = { r with packed := false })) := by
  obtain ⟨r, hr, -, -, -, -, h5⟩ := switch_to_new_view_summary pick vs view hv hn
  unfold switch_if_packed
  by_cases hp : vs.packed = true
  · rw [if_pos hp, hr]
    obtain ⟨r1, r2⟩ := r
    rcases h5 with ⟨hf, he⟩ | ⟨ht, -⟩
    · simp only at hf he
      subst hf he
      exact ⟨r1, by simp, Or.inl rfl⟩
    · simp only at ht
      subst ht
      exact ⟨{ r1 with packed := false }, by simp, Or.inr ⟨hp, r1, rfl, rfl⟩⟩
  · rw [if_neg hp]
    exact ⟨vs, rfl, Or.inl rfl⟩

/-- How one completed operation can change the view when no view is pending: not at
all, or by creating the first view, or by a transition attempt that is made with
`packed` true, on the state with the primary ttl zeroed (a restarted primary) or on
the state with the idle pool aged (a tick), and that reports a change. -/
theorem step_view_change (d : Int) (pick : Nat) (op : Op) (vs vs1 : ViewServer)
    (hn : vs.newv = none) (hs : step d pick vs op = some vs1) :
    vs1.view = vs.view ∨
      (vs.view = none ∧ ∃ c, op = Op.ping c 0 ∧ vs1.view = some ⟨1, c, ""⟩) ∨
      (vs.packed = true ∧ ∃ vs0 r,
        ((vs0 = { vs with pttl := 0 } ∧ ∃ view n, vs.view = some view ∧
            op = Op.ping view.Primary n) ∨
          (vs0 = cleanup_extra_servers vs ∧ op = Op.tick)) ∧
        switch_to_new_view pick vs0 = some (r, true) ∧ vs1.view = r.view) := by
  obtain ⟨view0, newv0, packed0, pttl0, bttl0, idle0⟩ := vs
  simp only at hn
  subst hn
  cases op with
  | ping c n =>
    simp only [step, Option.map_eq_some', Prod.exists, exists_and_right, exists_eq_right] at hs
    obtain ⟨reply, hs⟩ := hs
    unfold Ping at hs
    cases hh : Ping_handle d pick ⟨view0, none, packed0, pttl0, bttl0, idle0⟩ c n with
    | none => simp [hh] at hs
    | some vs2 =>
      rw [hh, Option.some_bind] at hs
      obtain ⟨-, b2, -, -⟩ := Ping_refresh_summary d vs2 vs1 c reply hs
      rw [b2]
      clear hs b2
      unfold Ping_handle at hh
      by_cases h0 : n = 0
      · rw [if_pos h0] at hh
        cases view0 with
        | none =>
          simp only [Option.some.injEq] at hh
          subst hh
          exact Or.inr (Or.inl ⟨rfl, c, by rw [h0], rfl⟩)
        | some view =>
          simp only at hh
          by_cases hc : c = view.Primary
          · rw [if_pos hc] at hh
            obtain ⟨vs3, e, h3⟩ := switch_if_packed_cases pick
              ⟨some view, none, packed0, 0, bttl0, idle0⟩ view rfl rfl
            rw [e, Option.some_bind] at hh
            have hview : vs2.view = vs3.view := by
              cases hv3 : vs3.view with
              | none => simp [hv3] at hh
              | some view3 =>
                rw [hv3, Option.some_bind] at hh
                split_ifs at hh <;> simp only [Option.some.injEq] at hh <;> subst hh <;>
                  first | rfl | exact hv3
            rcases h3 with rfl | ⟨hp, r, hr, rfl⟩
            · exact Or.inl hview
            · exact Or.inr (Or.inr ⟨hp, _, r, Or.inl ⟨rfl, view, n, rfl, by rw [hc]⟩, hr, hview⟩)
          · rw [if_neg hc, Option.some_bind, Option.some_bind] at hh
            left
            split_ifs at hh <;> simp only [Option.some.injEq] at hh <;> subst hh <;> rfl
      · rw [if_neg h0] at hh
        cases view0 with
        | none => simp at hh
        | some view =>
          left
          simp only [Option.some_bind, do_view_switch] at hh
          split_ifs at hh <;> simp only [Option.some.injEq] at hh <;> subst hh <;> rfl
  | tick =>
    simp only [step, tick] at hs
    cases view0 with
    | none =>
      simp only [Option.some.injEq] at hs
      subst hs
      exact Or.inl rfl
    | some view =>
      simp only at hs
      obtain ⟨vs3, e, h3⟩ := switch_if_packed_cases pick
        (cleanup_extra_servers ⟨some view, none, packed0, pttl0, bttl0, idle0⟩) view rfl rfl
      rw [e, Option.some_bind] at hs
      cases hv3 : vs3.view with
      | none => simp [hv3] at hs
      | some view3 =>
        rw [hv3, Option.some_bind, Option.some.injEq] at hs
        subst hs
        rcases h3 with rfl | ⟨hp, r, hr, rfl⟩
        · exact Or.inl rfl
        · exact Or.inr (Or.inr ⟨hp, _, r, Or.inr ⟨rfl, rfl⟩, hr, rfl⟩)

/-- The state `exAcked` is reachable. -/
theorem exAcked_reachable : Reachable 5 exAcked :=
  reachable_run 5 [(0, Op.ping "A" 0), (0, Op.ping "B" 0), (0, Op.ping "A" 1)]
    StartServer exAcked Reachable.start (by decide)

/-- With a view, `switch_to_new_view` completes and leaves a view, also when a view
is pending. -/
theorem switch_to_new_view_total (pick : Nat) (vs : ViewServer) (view : View)
    (hv : vs.view = some view) :
    ∃ r view1, switch_to_new_view pick vs = some r ∧ r.1.view = some view1 := by
  obtain ⟨view0, newv0, packed0, pttl0, bttl0, idle0⟩ := vs
  simp only at hv
  subst hv
  simp only [switch_to_new_view]
  split_ifs
  · exact ⟨_, view, rfl, rfl⟩
  all_goals
    cases newv0 with
    | none => exact ⟨_, _, rfl, rfl⟩
    | some w => exact ⟨_, _, rfl, rfl⟩

/-- An entry is in the aged pool exactly when the pool had the same server with a
ttl one higher, and that ttl was positive. -/
theorem mem_cleanup_extra_servers (vs : ViewServer) (k : String) (t : Int) :
    (k, t) ∈ (cleanup_extra_servers vs).idle_servers ↔
      (k, t + 1) ∈ vs.idle_servers ∧ 0 ≤ t := by
  simp only [cleanup_extra_servers, List.mem_filterMap, Prod.exists]
  constructor
  · rintro ⟨a, b, hm, h⟩
    split_ifs at h with hb
    simp only [Option.some.injEq, Prod.mk.injEq] at h
    obtain ⟨rfl, rfl⟩ := h
    have e : b - 1 + 1 = b := by ring
    rw [e]
    exact ⟨hm, by omega⟩
  · rintro ⟨hm, ht⟩
    refine ⟨k, t + 1, hm, ?_⟩
    have hb : ¬(t + 1 ≤ 0) := by omega
    simp only [hb, if_false, Option.some.injEq, Prod.mk.injEq, true_and]
    ring

/-! ## The invariant of the runs with non-empty callers -/

/-- The map that `get_and_del` leaves has no key that the map did not have. -/
theorem get_and_del_keys_subset (pick : Nat) (m : List (String × Int)) (k : String)
    (h : k ∈ mapKeys (get_and_del pick m).2) : k ∈ mapKeys m := by
  by_cases hm : m = []
  · subst hm
    exact h
  · rw [(get_and_del_of_ne_nil pick m hm).2, mem_mapKeys_mapDelete] at h
    exact h.1

/-- The server that `get_and_del` returns is not a key of the map it leaves, also
when the map is empty. -/
theorem get_and_del_fst_not_mem (pick : Nat) (m : List (String × Int)) :
    (get_and_del pick m).1 ∉ mapKeys (get_and_del pick m).2 := by
  by_cases hm : m = []
  · subst hm
    simp [get_and_del_nil, mapKeys]
  · exact get_and_del_removed pick m hm

/-- Ageing the idle pool adds no key. -/
theorem cleanup_keys_subset (vs : ViewServer) (k : String)
    (h : k ∈ mapKeys (cleanup_extra_servers vs).idle_servers) :
    k ∈ mapKeys vs.idle_servers := by
  simp only [mapKeys, List.mem_map, Prod.exists, exists_and_right, exists_eq_right] at h ⊢
  obtain ⟨t, ht⟩ := h
  exact ⟨t + 1, ((mem_cleanup_extra_servers vs k t).mp ht).1⟩

/-- The invariant only reads the view, the pending view, `packed` and the keys of the
idle pool. -/
theorem InvNE_of_same (vs vs1 : ViewServer) (hi : InvNE vs) (h1 : vs1.view = vs.view)
    (h2 : vs1.newv = vs.newv) (h3 : vs1.packed = vs.packed)
    (h4 : ∀ k, k ∈ mapKeys vs1.idle_servers → k ∈ mapKeys vs.idle_servers) : InvNE vs1 := by
  obtain ⟨a, b, c, e⟩ := hi
  refine ⟨by rw [h2, a], fun h => b (h4 _ h), fun view hv h => ?_, fun view hv hp => ?_⟩
  · exact c view (by rw [← h1]; exact hv) (h4 _ h)
  · rw [h3]
    exact e view (by rw [← h1]; exact hv) hp

/-- Registering a non-empty caller that is not the backup as idle keeps the
invariant. -/
theorem InvNE_mapSet (vs : ViewServer) (c : String) (d : Int) (hi : InvNE vs) (hc : c ≠ "")
    (hb : ∀ view, vs.view = some view → c ≠ view.Backup) :
    InvNE { vs with idle_servers := mapSet vs.idle_servers c d } := by
  obtain ⟨a, b, e, f⟩ := hi
  refine ⟨a, ?_, fun view hv => ?_, f⟩
  · simp only [mem_mapKeys_mapSet, not_or]
    exact ⟨fun h => hc h.symm, b⟩
  · simp only [mem_mapKeys_mapSet, not_or]
    exact ⟨fun h => hb view hv h.symm, e view hv⟩

/-- An attempt that reports a change, made with `packed` true from a state that
satisfies the invariant, commits a view numbered one higher whose primary or backup
differs from the current one. -/
theorem switch_to_new_view_changes_roles (pick : Nat) (vs r : ViewServer) (view : View)
    (hi : InvNE vs) (hv : vs.view = some view) (hk : vs.packed = true)
    (hs : switch_to_new_view pick vs = some (r, true)) :
    ∃ view1, r.view = some view1 ∧ view1.Viewnum = (view.Viewnum + 1) % uintSize ∧
      (view1.Primary ≠ view.Primary ∨ view1.Backup ≠ view.Backup) := by
  obtain ⟨a, b, c, e⟩ := hi
  -- the server that the attempt draws is not the current backup
  have hx : ¬(view.Backup = "" ∧ vs.idle_servers = []) →
      (get_and_del pick vs.idle_servers).1 ≠ view.Backup := by
    intro h1 heq
    by_cases hm : vs.idle_servers = []
    · rw [hm, get_and_del_nil] at heq
      exact h1 ⟨heq.symm, hm⟩
    · exact c view hv (heq ▸ (get_and_del_of_ne_nil pick _ hm).1)
  rw [switch_to_new_view_eq pick vs view hv a] at hs
  split_ifs at hs with h1 h2 h3 h4
  · simp at hs
  · simp only [Option.some.injEq, Prod.mk.injEq, and_true] at hs
    subst hs
    exact ⟨_, rfl, rfl, Or.inr (hx h1)⟩
  · simp only [Option.some.injEq, Prod.mk.injEq, and_true] at hs
    subst hs
    exact ⟨_, rfl, rfl, Or.inr (hx h1)⟩
  · simp only [Option.some.injEq, Prod.mk.injEq, and_true] at hs
    subst hs
    refine ⟨_, rfl, rfl, Or.inl fun h => ?_⟩
    have := e view hv h.symm
    rw [hk] at this
    cases this
  · simp at hs

/-- The guarded transition attempt keeps the invariant. -/
theorem switch_if_packed_InvNE (pick : Nat) (vs vs1 : ViewServer) (view : View)
    (hi : InvNE vs) (hv : vs.view = some view) (hs : switch_if_packed pick vs = some vs1) :
    InvNE vs1 := by
  obtain ⟨vs2, e, h⟩ := switch_if_packed_cases pick vs view hv hi.newv_none
  rw [e] at hs
  cases Option.some.inj hs
  rcases h with rfl | ⟨-, r, hr, rfl⟩
  · exact hi
  · obtain ⟨a, b, c, f⟩ := hi
    rw [switch_to_new_view_eq pick vs view hv a] at hr
    split_ifs at hr with h1 h2 h3 h4
    · simp at hr
    · simp only [Option.some.injEq, Prod.mk.injEq, and_true] at hr
      subst hr
      refine ⟨a, fun h => b (get_and_del_keys_subset pick _ _ h), fun w hw => ?_,
        fun _ _ _ => rfl⟩
      cases Option.some.inj hw
      exact get_and_del_fst_not_mem pick _
    · simp only [Option.some.injEq, Prod.mk.injEq, and_true] at hr
      subst hr
      refine ⟨a, fun h => b (get_and_del_keys_subset pick _ _ h), fun w hw => ?_,
        fun _ _ _ => rfl⟩
      cases Option.some.inj hw
      exact get_and_del_fst_not_mem pick _
    · simp only [Option.some.injEq, Prod.mk.injEq, and_true] at hr
      subst hr
      refine ⟨a, b, fun w hw => ?_, fun _ _ _ => rfl⟩
      cases Option.some.inj hw
      exact b
    · simp at hr

/-- The first part of a `Ping` from a non-empty caller keeps the invariant. -/
theorem Ping_handle_InvNE (d : Int) (pick : Nat) (vs vs1 : ViewServer) (c : String) (n : Nat)
    (hi : InvNE vs) (hc : c ≠ "") (h : Ping_handle d pick vs c n = some vs1) : InvNE vs1 := by
  obtain ⟨view0, newv0, packed0, pttl0, bttl0, idle0⟩ := vs
  have hn : newv0 = none := hi.newv_none
  subst hn
  unfold Ping_handle at h
  by_cases h0 : n = 0
  · rw [if_pos h0] at h
    cases view0 with
    | none =>
      simp only [Option.some.injEq] at h
      subst h
      obtain ⟨a, b, -, -⟩ := hi
      refine ⟨a, b, fun w hw => ?_, fun w hw hp => ?_⟩
      · cases Option.some.inj hw
        exact b
      · cases Option.some.inj hw
        exact absurd hp hc
    | some view =>
      simp only at h
      have key : ∃ vs2, (if c = view.Primary then
            switch_if_packed pick ⟨some view, none, packed0, 0, bttl0, idle0⟩
          else some ⟨some view, none, packed0, pttl0, bttl0, idle0⟩) = some vs2 ∧
          InvNE vs2 := by
        by_cases hp : c = view.Primary
        · rw [if_pos hp]
          have hi0 : InvNE ⟨some view, none, packed0, 0, bttl0, idle0⟩ :=
            InvNE_of_same _ _ hi rfl rfl rfl (fun _ hk => hk)
          obtain ⟨vs2, e, -⟩ := switch_if_packed_cases pick
            ⟨some view, none, packed0, 0, bttl0, idle0⟩ view rfl rfl
          exact ⟨vs2, e, switch_if_packed_InvNE pick _ vs2 view hi0 rfl e⟩
        · rw [if_neg hp]
          exact ⟨_, rfl, hi⟩
      obtain ⟨vs2, e, hi2⟩ := key
      rw [e, Option.some_bind] at h
      cases hv2 : vs2.view with
      | none => simp [hv2] at h
      | some view2 =>
        rw [hv2, Option.some_bind] at h
        by_cases hb : c ≠ "" ∧ c ≠ view2.Backup
        · rw [if_pos hb, Option.some.injEq] at h
          subst h
          refine InvNE_of_same _ _ (InvNE_mapSet vs2 c d hi2 hc (fun w hw => ?_)) hv2.symm
            rfl rfl (fun _ hk => hk)
          rw [hv2] at hw
          cases Option.some.inj hw
          exact hb.2
        · rw [if_neg hb, Option.some.injEq] at h
          subst h
          exact hi2
  · rw [if_neg h0] at h
    cases view0 with
    | none => simp at h
    | some view =>
      simp only [Option.some_bind, do_view_switch] at h
      by_cases hp : c = view.Primary
      · by_cases hm : n = view.Viewnum
        · simp only [hp, hm, if_true, Bool.false_eq_true, if_false, Option.some.injEq] at h
          subst h
          obtain ⟨a, b, e, -⟩ := hi
          refine ⟨a, b, e, fun w hw hq => ?_⟩
          cases Option.some.inj hw
          exact absurd (hp.trans hq) hc
        · simp only [hp, hm, if_true, if_false, Option.some.injEq] at h
          subst h
          exact hi
      · simp only [hp, if_false, Option.some.injEq] at h
        subst h
        exact hi

/-- The second part of a `Ping` from a non-empty caller keeps the invariant. -/
theorem Ping_refresh_InvNE (d : Int) (vs vs1 : ViewServer) (c : String) (reply : View)
    (hi : InvNE vs) (hc : c ≠ "") (h : Ping_refresh d vs c = some (vs1, reply)) :
    InvNE vs1 := by
  obtain ⟨view0, newv0, packed0, pttl0, bttl0, idle0⟩ := vs
  unfold Ping_refresh at h
  cases view0 with
  | none => simp at h
  | some view =>
    simp only [Option.some_bind] at h
    split_ifs at h with h1 h2 <;> simp only [Option.some.injEq, Prod.mk.injEq] at h <;>
      obtain ⟨rfl, -⟩ := h
    · exact InvNE_of_same _ _ hi rfl rfl rfl (fun _ hk => hk)
    · exact InvNE_of_same _ _ hi rfl rfl rfl (fun _ hk => hk)
    · exact InvNE_mapSet _ c d hi hc (fun w hw => by
        cases Option.some.inj hw
        exact h2)

/-- An operation with a non-empty caller keeps the invariant. -/
theorem step_InvNE (d : Int) (pick : Nat) (op : Op) (vs vs1 : ViewServer) (hi : InvNE vs)
    (hc : op.callerNonempty) (hs : step d pick vs op = some vs1) : InvNE vs1 := by
  cases op with
  | ping c n =>
    simp only [step, Option.map_eq_some', Prod.exists, exists_and_right, exists_eq_right] at hs
    obtain ⟨reply, hs⟩ := hs
    unfold Ping at hs
    cases hh : Ping_handle d pick vs c n with
    | none => simp [hh] at hs
    | some vs2 =>
      rw [hh, Option.some_bind] at hs
      exact Ping_refresh_InvNE d vs2 vs1 c reply (Ping_handle_InvNE d pick vs vs2 c n hi hc hh)
        hc hs
  | tick =>
    obtain ⟨view0, newv0, packed0, pttl0, bttl0, idle0⟩ := vs
    simp only [step, tick] at hs
    cases view0 with
    | none =>
      simp only [Option.some.injEq] at hs
      subst hs
      exact hi
    | some view =>
      simp only at hs
      have hi1 : InvNE (cleanup_extra_servers ⟨some view, newv0, packed0, pttl0, bttl0, idle0⟩) :=
        InvNE_of_same _ _ hi rfl rfl rfl (cleanup_keys_subset _)
      cases e : switch_if_packed pick
          (cleanup_extra_servers ⟨some view, newv0, packed0, pttl0, bttl0, idle0⟩) with
      | none => simp [e] at hs
      | some vs2 =>
        have hi2 := switch_if_packed_InvNE pick _ vs2 view hi1 rfl e
        rw [e, Option.some_bind] at hs
        cases hv2 : vs2.view with
        | none => simp [hv2] at hs
        | some view2 =>
          rw [hv2, Option.some_bind, Option.some.injEq] at hs
          subst hs
          exact InvNE_of_same vs2 _ hi2 rfl rfl rfl (fun _ hk => hk)

/-- A state reached with non-empty callers is reachable. -/
theorem ReachableNE.reachable (d : Int) (vs : ViewServer) (hr : ReachableNE d vs) :
    Reachable d vs := by
  induction hr with
  | start => exact Reachable.start
  | next pick op vs vs1 _ _ hs ih => exact Reachable.next pick op vs vs1 ih hs

/-- Every state reached with non-empty callers satisfies the invariant. -/
theorem reachableNE_inv (d : Int) (vs : ViewServer) (hr : ReachableNE d vs) : InvNE vs := by
  induction hr with
  | start =>
    exact ⟨rfl, by simp [StartServer, mapKeys], fun w hw => (by cases hw),
      fun w hw => (by cases hw)⟩
  | next pick op vs vs1 _ hc hs ih => exact step_InvNE d pick op vs vs1 ih hc hs

/-- The end of a run with non-empty callers that completes from a state reached with
non-empty callers is such a state. -/
theorem reachableNE_run (d : Int) (ops : List (Nat × Op)) :
    ∀ vs vs1 : ViewServer, ReachableNE d vs → (∀ o ∈ ops, o.2.callerNonempty) →
      run d vs ops = some vs1 → ReachableNE d vs1 := by
  induction ops with
  | nil =>
    intro vs vs1 hr _ h
    cases Option.some.inj h
    exact hr
  | cons o rest ih =>
    intro vs vs1 hr hc h
    obtain ⟨pick, op⟩ := o
    simp only [run] at h
    cases hs : step d pick vs op with
    | none => simp [hs] at h
    | some vs2 =>
      rw [hs, Option.some_bind] at h
      exact ih vs2 vs1
        (ReachableNE.next pick op vs vs2 hr (hc (pick, op) (List.mem_cons_self _ _)) hs)
        (fun o ho => hc o (List.mem_cons_of_mem _ ho)) h

/-- The state `exDead` is reached with non-empty callers. -/
theorem exDead_reachableNE : ReachableNE 5 exDead :=
  reachableNE_run 5
    [(0, Op.ping "A" 0), (0, Op.ping "B" 0), (0, Op.ping "A" 1), (0, Op.tick),
     (0, Op.ping "A" 2), (0, Op.ping "A" 0)]
    StartServer exDead ReachableNE.start (by decide) (by decide)

/-- The state `exAcked` is reached with non-empty callers. -/
theorem exAcked_reachableNE : ReachableNE 5 exAcked :=
  reachableNE_run 5 [(0, Op.ping "A" 0), (0, Op.ping "B" 0), (0, Op.ping "A" 1)]
    StartServer exAcked ReachableNE.start (by decide) (by decide)

/-- With a view whose primary is empty, `packed` false and no pending view, an
operation with a non-empty caller completes and leaves the view, `packed` and the
absence of a pending view as they are. -/
theorem dead_view_step (d : Int) (pick : Nat) (op : Op) (vs : ViewServer) (view : View)
    (hv : vs.view = some view) (hp : view.Primary = "") (hk : vs.packed = false)
    (hn : vs.newv = none) (hc : op.callerNonempty) :
    ∃ vs1, step d pick vs op = some vs1 ∧ vs1.view = vs.view ∧ vs1.packed = false ∧
      vs1.newv = none := by
  obtain ⟨view0, newv0, packed0, pttl0, bttl0, idle0⟩ := vs
  simp only at hv hk hn
  subst hv hk hn
  cases op with
  | ping c n =>
    have hcp : ¬ c = view.Primary := fun h => hc (h.trans hp)
    have e1 : ∃ vs2, Ping_handle d pick ⟨some view, none, false, pttl0, bttl0, idle0⟩ c n =
        some vs2 ∧ vs2.view = some view ∧ vs2.packed = false ∧ vs2.newv = none := by
      unfold Ping_handle
      by_cases h0 : n = 0
      · simp only [h0, if_true, hcp, if_false, Option.some_bind]
        split_ifs <;> exact ⟨_, rfl, rfl, rfl, rfl⟩
      · simp only [h0, if_false, Option.some_bind, hcp]
        exact ⟨_, rfl, rfl, rfl, rfl⟩
    obtain ⟨vs2, e2, a1, a2, a3⟩ := e1
    simp only [step, Ping, e2, Option.some_bind, Ping_refresh, a1, hcp, if_false]
    split_ifs <;> exact ⟨_, rfl, rfl, a2, a3⟩
  | tick =>
    exact ⟨_, rfl, rfl, rfl, rfl⟩

/-- In `exRot n P Q I` the primary reports a restart and the new primary acknowledges:
the result is `exRot (n + 1) Q I P`. No tick is needed. -/
theorem exRot_next (n : Nat) (P Q I : String) (hP : P ≠ "") (hPQ : P ≠ Q) (hPI : P ≠ I)
    (hn : n + 1 < uintSize) :
    run 5 (exRot n P Q I) [(0, Op.ping P 0), (0, Op.ping Q (n + 1))] =
      some (exRot (n + 1) Q I P) := by
  have hmod : (n + 1) % uintSize = n + 1 := Nat.mod_eq_of_lt hn
  have h2 : ¬((0 : Int) > 0 ∧ (5 : Int) ≤ 0) := by decide
  have hg : get_and_del 0 [(I, (5 : Int))] = (I, []) := by
    simp [get_and_del, mapDelete]
  have e1 : step 5 0 (exRot n P Q I) (Op.ping P 0) =
      some ⟨some ⟨n + 1, Q, I⟩, none, false, 0, 5, [(P, 5)]⟩ := by
    have e0 : Ping_handle 5 0 (exRot n P Q I) P 0 =
        some ⟨some ⟨n + 1, Q, I⟩, none, false, 0, 5, [(P, 5)]⟩ := by
      simp only [Ping_handle, exRot, if_true, switch_if_packed]
      rw [switch_to_new_view_eq 0 _ ⟨n, P, Q⟩ rfl rfl]
      simp [hg, hmod, hP, hPI, mapSet]
    simp [step, Ping, e0, Ping_refresh, hPQ, hPI, mapSet]
  have e2 : step 5 0 ⟨some ⟨n + 1, Q, I⟩, none, false, 0, 5, [(P, 5)]⟩ (Op.ping Q (n + 1)) =
      some (exRot (n + 1) Q I P) := by
    simp [step, Ping, Ping_handle, Ping_refresh, do_view_switch, exRot]
  simp only [run, e1, e2, Option.some_bind]

/-- The three names are non-empty. -/
theorem rotName_ne_empty (i : Nat) : rotName i ≠ "" := by
  unfold rotName
  split_ifs <;> decide

/-- Consecutive names differ. -/
theorem rotName_ne_succ (i : Nat) : rotName i ≠ rotName (i + 1) := by
  unfold rotName
  have h : i % 3 = 0 ∨ i % 3 = 1 ∨ i % 3 = 2 := by omega
  rcases h with h | h | h
  · have h1 : (i + 1) % 3 = 1 := by omega
    simp [h, h1]
  · have h1 : (i + 1) % 3 = 2 := by omega
    simp [h, h1]
  · have h1 : (i + 1) % 3 = 0 := by omega
    simp [h, h1]

/-- Names two apart differ. -/
theorem rotName_ne_succ_succ (i : Nat) : rotName i ≠ rotName (i + 2) := by
  unfold rotName
  have h : i % 3 = 0 ∨ i % 3 = 1 ∨ i % 3 = 2 := by omega
  rcases h with h | h | h
  · have h1 : (i + 2) % 3 = 2 := by omega
    simp [h, h1]
  · have h1 : (i + 2) % 3 = 0 := by omega
    simp [h, h1]
  · have h1 : (i + 2) % 3 = 1 := by omega
    simp [h, h1]

/-- The names repeat with period 3. -/
theorem rotName_add_three (i : Nat) : rotName (i + 3) = rotName i := by
  unfold rotName
  have h1 : (i + 3) % 3 = i % 3 := by omega
  rw [h1]

/-- Every view number from 2 up to the largest `uint` is reached, with non-empty
callers only: the servers `"A"`, `"B"`, `"C"` take the roles in turn. -/
theorem exRot_reachableNE (n : Nat) (h2 : 2 ≤ n) (hn : n < uintSize) :
    ReachableNE 5 (exRot n (rotName (n + 1)) (rotName (n + 2)) (rotName n)) := by
  induction n, h2 using Nat.le_induction with
  | base =>
    exact reachableNE_run 5
      [(0, Op.ping "A" 0), (0, Op.ping "B" 0), (0, Op.ping "A" 1), (0, Op.tick),
       (0, Op.ping "B" 2), (0, Op.ping "C" 0), (0, Op.ping "A" 2)]
      StartServer _ ReachableNE.start (by decide) (by decide)
  | succ n _ ih =>
    have ih1 := ih (Nat.lt_of_succ_lt hn)
    have e := exRot_next n (rotName (n + 1)) (rotName (n + 2)) (rotName n)
      (rotName_ne_empty _) (rotName_ne_succ _)
      (fun h => rotName_ne_succ_succ (n + 1) (by rw [rotName_add_three]; exact h)) hn
    have e3 : rotName (n + 1 + 2) = rotName n := rotName_add_three n
    rw [e3]
    refine reachableNE_run 5 _ _ _ ih1 ?_ e
    intro o ho
    simp only [List.mem_cons, List.mem_singleton, List.not_mem_nil, or_false] at ho
    rcases ho with rfl | rfl
    · exact rotName_ne_empty _
    · exact rotName_ne_empty _

/-- The state `exWrap`, whose view number is the largest `uint`, is reached with
non-empty callers only. -/
theorem exWrap_reachableNE : ReachableNE 5 exWrap :=
  exRot_reachableNE 18446744073709551615 (by decide) (by decide)

/-- The state `exWrapCrashed` is reachable. -/
theorem exWrapCrashed_reachable : Reachable 5 exWrapCrashed :=
  reachable_run 5
    [(0, Op.tick), (0, Op.ping "C" 18446744073709551615), (0, Op.tick), (0, Op.tick),
     (0, Op.tick), (0, Op.tick)]
    exWrap exWrapCrashed (ReachableNE.reachable 5 exWrap exWrap_reachableNE) (by decide)

/-- The state `exWrapBothDead` is reachable. -/
theorem exWrapBothDead_reachable : Reachable 5 exWrapBothDead :=
  reachable_run 5 [(0, Op.tick), (0, Op.tick), (0, Op.tick), (0, Op.tick), (0, Op.tick)]
    exWrap exWrapBothDead (ReachableNE.reachable 5 exWrap exWrap_reachableNE) (by decide)

/-! ## The claims -/

/-- C1, evaluated on the code: with `DeadPings = 5` the run `Ping("A",0)`, `Ping("A",0)`,
`Ping("A",1)`, tick of a freshly started server completes in a reachable state whose
view is `{2, "A", "A"}`: the primary and the backup are the same non-empty server. -/
theorem C1_primary_is_its_own_backup :
    ∃ vs, run 5 StartServer
        [(0, Op.ping "A" 0), (0, Op.ping "A" 0), (0, Op.ping "A" 1), (0, Op.tick)] = some vs ∧
      Reachable 5 vs ∧ vs.view = some ⟨2, "A", "A"⟩ := by
  have h : run 5 StartServer
      [(0, Op.ping "A" 0), (0, Op.ping "A" 0), (0, Op.ping "A" 1), (0, Op.tick)] =
      some { view := some ⟨2, "A", "A"⟩, newv := none, packed := false, pttl := 4, bttl := 0,
             idle_servers := [] } := by decide
  exact ⟨_, h, reachable_run 5 _ StartServer _ Reachable.start h, rfl⟩

/-- C2, evaluated on the code: with `DeadPings = 5` the run below, in which every
caller is non-empty, completes in a reachable state whose view is `{4, "", "A"}`:
there is a backup and no primary. -/
theorem C2_backup_without_primary :
    ∃ vs, run 5 StartServer
        [(0, Op.ping "A" 0), (0, Op.ping "B" 0), (0, Op.ping "A" 1), (0, Op.tick),
         (0, Op.ping "B" 2), (0, Op.ping "A" 2), (0, Op.ping "A" 0), (0, Op.ping "B" 3),
         (0, Op.ping "B" 0)] = some vs ∧
      Reachable 5 vs ∧ vs.view = some ⟨4, "", "A"⟩ := by
  have h : run 5 StartServer
      [(0, Op.ping "A" 0), (0, Op.ping "B" 0), (0, Op.ping "A" 1), (0, Op.tick),
       (0, Op.ping "B" 2), (0, Op.ping "A" 2), (0, Op.ping "A" 0), (0, Op.ping "B" 3),
       (0, Op.ping "B" 0)] =
      some { view := some ⟨4, "", "A"⟩, newv := none, packed := false, pttl := 0, bttl := 5,
             idle_servers := [("B", 5)] } := by decide
  exact ⟨_, h, reachable_run 5 _ StartServer _ Reachable.start h, rfl⟩

/-- C3: from a reachable state in which a view exists, an operation that completes
and leaves a current view different from the one before was started with `packed`
(acknowledged) true. -/
theorem C3_view_changes_only_when_packed (d : Int) (pick : Nat) (op : Op)
    (vs vs1 : ViewServer) (view : View) (hr : Reachable d vs) (hv : vs.view = some view)
    (hs : step d pick vs op = some vs1) (hc : vs1.view ≠ vs.view) : vs.packed = true := by
  obtain ⟨-, h⟩ := step_summary d pick op vs vs1 (reachable_inv d vs hr) hs
  rcases h with ⟨h1, -⟩ | ⟨h1, -⟩ | ⟨_, _, _, -, h2, -⟩
  · exact absurd h1 hc
  · rw [hv] at h1; cases h1
  · exact h2

/-- An instance of C3: the tick that commits view 2 starts from `exAcked`, in which
`packed` is true. -/
theorem C3_view_changes_only_when_packed_witness :
    Reachable 5 exAcked ∧ exAcked.view = some ⟨1, "A", ""⟩ ∧
      step 5 0 exAcked Op.tick = some exCommitted ∧ exCommitted.view ≠ exAcked.view ∧
      exAcked.packed = true :=
  ⟨exAcked_reachable, rfl, by decide, by decide,
    C3_view_changes_only_when_packed 5 0 Op.tick exAcked exCommitted ⟨1, "A", ""⟩
      exAcked_reachable rfl (by decide) (by decide)⟩

/-- C4: from a reachable state, an operation that completes and changes the current
view leaves `packed` (acknowledged) false; and `packed` goes from false to true only
by a `Ping` whose caller is the primary of the current view and whose view number is
the number of the current view. -/
theorem C4_packed_after_an_operation (d : Int) (pick : Nat) (op : Op)
    (vs vs1 : ViewServer) (hr : Reachable d vs) (hs : step d pick vs op = some vs1) :
    (vs1.view ≠ vs.view → vs1.packed = false) ∧
    (vs.packed = false → vs1.packed = true →
      ∃ view, vs.view = some view ∧ op = Op.ping view.Primary view.Viewnum) := by
  obtain ⟨-, h⟩ := step_summary d pick op vs vs1 (reachable_inv d vs hr) hs
  rcases h with ⟨h1, h2⟩ | ⟨-, h2, -⟩ | ⟨_, _, _, -, -, h2, -⟩
  · refine ⟨fun hc => absurd h1 hc, fun hf ht => ?_⟩
    rcases h2 with h2 | ⟨-, h2⟩
    · rw [h2, hf] at ht; cases ht
    · exact h2
  · exact ⟨fun _ => h2, fun _ ht => by rw [h2] at ht; cases ht⟩
  · exact ⟨fun _ => h2, fun _ ht => by rw [h2] at ht; cases ht⟩

/-- Two instances of C4: the tick that commits view 2 from `exAcked` leaves `packed`
false, and the `Ping("A",1)` that turns `packed` true in `exPinged` comes from the
primary of view 1 with view number 1. -/
theorem C4_packed_after_an_operation_witness :
    (Reachable 5 exAcked ∧ step 5 0 exAcked Op.tick = some exCommitted ∧
      exCommitted.view ≠ exAcked.view ∧ exCommitted.packed = false) ∧
    (Reachable 5 exPinged ∧ step 5 0 exPinged (Op.ping "A" 1) = some exAcked ∧
      exPinged.packed = false ∧ exAcked.packed = true ∧
      ∃ view, exPinged.view = some view ∧ Op.ping "A" 1 = Op.ping view.Primary view.Viewnum) :=
  have hr : Reachable 5 exPinged :=
    reachable_run 5 [(0, Op.ping "A" 0), (0, Op.ping "B" 0)] StartServer exPinged
      Reachable.start (by decide)
  ⟨⟨exAcked_reachable, by decide, by decide,
      (C4_packed_after_an_operation 5 0 Op.tick exAcked exCommitted exAcked_reachable
        (by decide)).1 (by decide)⟩,
    ⟨hr, by decide, rfl, rfl,
      (C4_packed_after_an_operation 5 0 (Op.ping "A" 1) exPinged exAcked hr
        (by decide)).2 rfl rfl⟩⟩

/-- C5 as stated fails at the largest view number: `exWrap`, reached from the freshly
started server with `DeadPings = 5`, has view number `2 ^ 64 - 1`; the restart
`Ping("B",0)` of its primary completes and commits a view whose number is 0, which
is neither the number before nor that number plus one. -/
theorem C5_viewnum_wraps_to_zero :
    Reachable 5 exWrap ∧ step 5 0 exWrap (Op.ping "B" 0) = some exWrapped ∧
      (Get exWrap).Viewnum = 18446744073709551615 ∧ (Get exWrapped).Viewnum = 0 ∧
      ¬ ((Get exWrapped).Viewnum = (Get exWrap).Viewnum ∨
          (Get exWrapped).Viewnum = (Get exWrap).Viewnum + 1) :=
  ⟨ReachableNE.reachable 5 exWrap exWrap_reachableNE, by decide, rfl, rfl, by decide⟩

/-- C5 amended: from a reachable state, after an operation that completes the view
number that `Get` returns is the one it returned before or its successor as a Go
`uint`, that is, that number plus one below the largest `uint` and 0 at the largest
`uint` (with no view `Get` returns number 0). -/
theorem C5_viewnum_successor_as_uint (d : Int) (pick : Nat) (op : Op)
    (vs vs1 : ViewServer) (hr : Reachable d vs) (hs : step d pick vs op = some vs1) :
    (Get vs).Viewnum < uintSize ∧
    ((Get vs1).Viewnum = (Get vs).Viewnum ∨
      (Get vs1).Viewnum = ((Get vs).Viewnum + 1) % uintSize) ∧
    ((Get vs).Viewnum + 1 < uintSize →
      (Get vs1).Viewnum = (Get vs).Viewnum ∨ (Get vs1).Viewnum = (Get vs).Viewnum + 1) ∧
    ((Get vs).Viewnum + 1 = uintSize →
      (Get vs1).Viewnum = (Get vs).Viewnum ∨ (Get vs1).Viewnum = 0) := by
  have hi := reachable_inv d vs hr
  have hlt : (Get vs).Viewnum < uintSize := by
    unfold Get
    cases hv : vs.view with
    | none => decide
    | some view => exact hi.viewnum_lt view hv
  have key : (Get vs1).Viewnum = (Get vs).Viewnum ∨
      (Get vs1).Viewnum = ((Get vs).Viewnum + 1) % uintSize := by
    obtain ⟨-, h⟩ := step_summary d pick op vs vs1 hi hs
    rcases h with ⟨h1, -⟩ | ⟨h1, -, c, h2⟩ | ⟨view, p, b, h1, -, -, h2⟩
    · left; simp only [Get, h1]
    · right; simp only [Get, h1, h2, create_view]; decide
    · right; simp only [Get, h1, h2]
  refine ⟨hlt, key, fun hb => ?_, fun hb => ?_⟩
  · rw [Nat.mod_eq_of_lt hb] at key
    exact key
  · rw [hb, Nat.mod_self] at key
    exact key

/-- Two instances of the amended C5: the tick from `exAcked` takes the view number
from 1 to 2, and the restart of the primary in `exWrap` takes it from the largest
`uint` to 0. -/
theorem C5_viewnum_successor_as_uint_witness :
    (Reachable 5 exAcked ∧ step 5 0 exAcked Op.tick = some exCommitted ∧
      (Get exAcked).Viewnum = 1 ∧
      ((Get exCommitted).Viewnum = (Get exAcked).Viewnum ∨
        (Get exCommitted).Viewnum = (Get exAcked).Viewnum + 1)) ∧
    (Reachable 5 exWrap ∧ step 5 0 exWrap (Op.ping "B" 0) = some exWrapped ∧
      (Get exWrap).Viewnum + 1 = uintSize ∧
      ((Get exWrapped).Viewnum = (Get exWrap).Viewnum ∨ (Get exWrapped).Viewnum = 0)) :=
  ⟨⟨exAcked_reachable, by decide, rfl,
      (C5_viewnum_successor_as_uint 5 0 Op.tick exAcked exCommitted exAcked_reachable
        (by decide)).2.2.1 (by decide)⟩,
    ⟨ReachableNE.reachable 5 exWrap exWrap_reachableNE, by decide, by decide,
      (C5_viewnum_successor_as_uint 5 0 (Op.ping "B" 0) exWrap exWrapped
        (ReachableNE.reachable 5 exWrap exWrap_reachableNE) (by decide)).2.2.2 (by decide)⟩⟩

/-- C6, evaluated on the code: on the freshly started server, which has no view, a
`Ping` with a view number other than 0 does not complete, whoever the caller is: the
handler reads `vs.view.Primary` of a nil view. -/
theorem C6_Ping_fails_without_view (d : Int) (pick : Nat) (c : String) (n : Nat) :
    Ping d pick StartServer c (n + 1) = none := by
  simp [Ping, Ping_handle, StartServer]

/-- C7 as stated fails: in the state reached by `Ping("A",0)`, `Ping("B",0)` (view
`{1, "A", ""}`, idle pool `{"B"}`), `Ping("A",1)` returns `{1, "A", ""}`, not
`{2, "A", "B"}`; the view is unchanged, `"B"` is still idle and `packed` is true. -/
theorem C7_ack_does_not_commit :
    run 5 StartServer [(0, Op.ping "A" 0), (0, Op.ping "B" 0)] = some exPinged ∧
      exPinged.view = some ⟨1, "A", ""⟩ ∧ exPinged.idle_servers = [("B", 5)] ∧
      Ping 5 0 exPinged "A" 1 = some (exAcked, ⟨1, "A", ""⟩) ∧
      exAcked.view = some ⟨1, "A", ""⟩ ∧ exAcked.packed = true ∧
      exAcked.idle_servers = [("B", 5)] ∧
      ¬ ∃ vs1 b, Ping 5 0 exPinged "A" 1 = some (vs1, ⟨2, "A", b⟩) ∧ vs1.packed = false := by
  have h : Ping 5 0 exPinged "A" 1 = some (exAcked, ⟨1, "A", ""⟩) := by decide
  refine ⟨by decide, rfl, rfl, h, rfl, rfl, rfl, ?_⟩
  rintro ⟨vs1, b, e, -⟩
  rw [h] at e
  simp at e

/-- C7 amended: in a reachable state whose view is `{n, A, ""}` with `n` other than 0
(a `Ping` with number 0 reports a restart), `Ping(A, n)` commits nothing: it returns
the unchanged view `{n, A, ""}`, sets `packed` (acknowledged) to true and the primary
ttl to `DeadPings`, and leaves the idle pool as it is. The transition is committed by
the following tick: when `DeadPings > 0`, the backup ttl is at most 0 and the idle
pool is not empty after aging, that tick yields the view `{(n+1) mod 2^64, A, b}`,
numbered with the successor of `n` as a Go `uint`, with `b` a member of the aged idle
pool, removed from it, and `packed` false. -/
theorem C7_ack_then_tick_commits (d : Int) (pick pick1 : Nat) (vs : ViewServer) (n : Nat)
    (A : String) (hr : Reachable d vs) (hv : vs.view = some ⟨n, A, ""⟩) (h1 : n ≠ 0) :
    Ping d pick vs A n = some ({ vs with packed := true, pttl := d }, ⟨n, A, ""⟩) ∧
    (0 < d → vs.bttl ≤ 0 → (cleanup_extra_servers vs).idle_servers ≠ [] →
      ∃ vs2 b, tick pick1 { vs with packed := true, pttl := d } = some vs2 ∧
        vs2.view = some ⟨(n + 1) % uintSize, A, b⟩ ∧ vs2.packed = false ∧
        b ∈ mapKeys (cleanup_extra_servers vs).idle_servers ∧
        vs2.idle_servers = mapDelete (cleanup_extra_servers vs).idle_servers b ∧
        b ∉ mapKeys vs2.idle_servers) := by
  have hn := (reachable_inv d vs hr).newv_none
  obtain ⟨view0, newv0, packed0, pttl0, bttl0, idle0⟩ := vs
  simp only at hn hv
  subst hn hv
  constructor
  · simp [Ping, Ping_handle, Ping_refresh, do_view_switch, h1]
  · intro hd hb hne
    simp only [cleanup_extra_servers] at hne hb
    simp only [tick, switch_if_packed, cleanup_extra_servers, if_true]
    rw [switch_to_new_view_eq pick1 _ ⟨n, A, ""⟩ rfl rfl]
    simp only [hne, and_false, if_false, hd, hb, and_self, gt_iff_lt, if_true,
      Option.map_some', Option.some_bind]
    generalize idle0.filterMap (fun e => if e.2 ≤ 0 then none else some (e.1, e.2 - 1))
      = aged at hne ⊢
    obtain ⟨m1, m2⟩ := get_and_del_of_ne_nil pick1 _ hne
    exact ⟨_, _, rfl, rfl, rfl, m1, m2, get_and_del_removed pick1 _ hne⟩

/-- An instance of the amended C7: after `Ping("A",0)`, `Ping("B",0)`, the call
`Ping("A",1)` returns `{1, "A", ""}` with `packed` true, and the next tick commits
view 2 with a backup drawn from the idle pool. -/
theorem C7_ack_then_tick_commits_witness :
    Reachable 5 exPinged ∧ exPinged.view = some ⟨1, "A", ""⟩ ∧
      Ping 5 0 exPinged "A" 1 = some (exAcked, ⟨1, "A", ""⟩) ∧
      ∃ vs2 b, tick 0 exAcked = some vs2 ∧ vs2.view = some ⟨2, "A", b⟩ ∧
        vs2.packed = false ∧ b ∈ mapKeys (cleanup_extra_servers exPinged).idle_servers ∧
        vs2.idle_servers = mapDelete (cleanup_extra_servers exPinged).idle_servers b ∧
        b ∉ mapKeys vs2.idle_servers :=
  have hr : Reachable 5 exPinged :=
    reachable_run 5 [(0, Op.ping "A" 0), (0, Op.ping "B" 0)] StartServer exPinged
      Reachable.start (by decide)
  have h := C7_ack_then_tick_commits 5 0 0 exPinged 1 "A" hr rfl (by decide)
  ⟨hr, rfl, h.1, h.2 (by decide) (by decide) (by decide)⟩

/-- C8 as stated fails at the largest view number: `exWrap`, reached from the freshly
started server with `DeadPings = 5`, has view `{2^64 - 1, "B", "C"}`, `packed` true,
backup ttl 5, no pending view and idle pool `{"A"}`; `Ping("B",0)` returns the view
`{0, "C", "A"}`, whose number is not `2^64`. -/
theorem C8_reply_number_wraps :
    Reachable 5 exWrap ∧ exWrap.view = some ⟨18446744073709551615, "B", "C"⟩ ∧
      exWrap.packed = true ∧ exWrap.bttl > 0 ∧ exWrap.newv = none ∧
      "B" ∉ mapKeys exWrap.idle_servers ∧
      Ping 5 0 exWrap "B" 0 = some (exWrapped, ⟨0, "C", "A"⟩) ∧
      ¬ ∃ vs1 x, Ping 5 0 exWrap "B" 0 = some (vs1, ⟨18446744073709551615 + 1, "C", x⟩) := by
  have h : Ping 5 0 exWrap "B" 0 = some (exWrapped, ⟨0, "C", "A"⟩) := by decide
  refine ⟨ReachableNE.reachable 5 exWrap exWrap_reachableNE, rfl, rfl, by decide, rfl,
    by decide, h, ?_⟩
  rintro ⟨vs1, x, e⟩
  rw [h] at e
  simp at e

/-- C8 amended: in a state with view `{n, A, B}`, `A` and `B` non-empty and distinct, `packed`
true, backup ttl positive, no pending view and `A` not idle, `Ping(A, 0)` completes
and returns the view `{(n+1) mod 2^64, B, x}`, numbered with the successor of `n` as a
Go `uint`, which is the current view afterwards; `x` is
empty when the idle pool was empty, and otherwise a member of the idle pool that is
no longer in it afterwards; `packed` is false and `A` is idle afterwards. -/
theorem C8_restarted_primary_is_replaced (d : Int) (pick : Nat) (vs : ViewServer) (n : Nat)
    (A B : String) (hv : vs.view = some ⟨n, A, B⟩) (hA : A ≠ "") (hB : B ≠ "")
    (hAB : A ≠ B) (hk : vs.packed = true) (hb : vs.bttl > 0) (hn : vs.newv = none)
    (hi : A ∉ mapKeys vs.idle_servers) :
    ∃ vs1 x, Ping d pick vs A 0 = some (vs1, ⟨(n + 1) % uintSize, B, x⟩) ∧
      vs1.view = some ⟨(n + 1) % uintSize, B, x⟩ ∧ vs1.packed = false ∧
      A ∈ mapKeys vs1.idle_servers ∧
      ((vs.idle_servers = [] ∧ x = "") ∨
        (x ∈ mapKeys vs.idle_servers ∧ x ∉ mapKeys vs1.idle_servers)) := by
  obtain ⟨view0, newv0, packed0, pttl0, bttl0, idle0⟩ := vs
  simp only at hv hk hb hn hi
  subst hv hk hn
  -- the server that the transition draws is not `A`
  have hx : A ≠ (get_and_del pick idle0).1 := by
    by_cases hne : idle0 = []
    · subst hne
      exact hA
    · intro e
      exact hi (e ▸ (get_and_del_of_ne_nil pick idle0 hne).1)
  have hBA : ¬ A = B := hAB
  have h2 : ¬((0 : Int) > 0 ∧ bttl0 ≤ 0) := fun h => absurd h.1 (by decide)
  have e1 : Ping_handle d pick ⟨some ⟨n, A, B⟩, none, true, pttl0, bttl0, idle0⟩ A 0 =
      some ⟨some ⟨(n + 1) % uintSize, B, (get_and_del pick idle0).1⟩, none, false, 0, bttl0,
        mapSet (get_and_del pick idle0).2 A d⟩ := by
    simp only [Ping_handle, if_true, switch_if_packed]
    rw [switch_to_new_view_eq pick _ ⟨n, A, B⟩ rfl rfl]
    simp only [hB, false_and, if_false, h2, le_refl, hb, and_self, if_true,
      Option.map_some', Option.some_bind, ne_eq, hA, not_false_eq_true, hx]
  refine ⟨⟨some ⟨(n + 1) % uintSize, B, (get_and_del pick idle0).1⟩, none, false, 0, bttl0,
    mapSet (mapSet (get_and_del pick idle0).2 A d) A d⟩, (get_and_del pick idle0).1, ?_, ?_⟩
  · simp only [Ping, e1, Option.some_bind, Ping_refresh, hBA, if_false, hx]
  · refine ⟨rfl, rfl, ?_, ?_⟩
    · simp only [mem_mapKeys_mapSet, true_or]
    · by_cases hne : idle0 = []
      · exact Or.inl ⟨hne, by subst hne; rfl⟩
      · refine Or.inr ⟨(get_and_del_of_ne_nil pick idle0 hne).1, ?_⟩
        have m3 := get_and_del_removed pick idle0 hne
        simp only [mem_mapKeys_mapSet, not_or]
        exact ⟨fun e => hx e.symm, fun e => hx e.symm, m3⟩

/-- An instance of the amended C8: in `exBoth` the restarted primary `"A"` is replaced by `"B"` in
view 3. -/
theorem C8_restarted_primary_is_replaced_witness :
    exBoth.view = some ⟨2, "A", "B"⟩ ∧ exBoth.packed = true ∧ exBoth.bttl > 0 ∧
      ∃ vs1 x, Ping 5 0 exBoth "A" 0 = some (vs1, ⟨3, "B", x⟩) ∧
        vs1.view = some ⟨3, "B", x⟩ ∧ vs1.packed = false ∧
        "A" ∈ mapKeys vs1.idle_servers ∧
        ((exBoth.idle_servers = [] ∧ x = "") ∨
          (x ∈ mapKeys exBoth.idle_servers ∧ x ∉ mapKeys vs1.idle_servers)) :=
  ⟨rfl, rfl, by decide,
    C8_restarted_primary_is_replaced 5 0 exBoth 2 "A" "B" rfl (by decide) (by decide)
      (by decide) rfl (by decide) rfl (by simp [mapKeys, exBoth])⟩

/-- C9 as stated fails at the largest view number: `exWrapCrashed`, reached from the
freshly started server with `DeadPings = 5`, has view `{2^64 - 1, "B", "C"}`, `packed`
true, primary ttl 0, backup ttl 1 and no pending view; a tick yields the view
`{0, "C", ""}`, whose number is not `2^64`. -/
theorem C9_tick_number_wraps :
    Reachable 5 exWrapCrashed ∧
      exWrapCrashed.view = some ⟨18446744073709551615, "B", "C"⟩ ∧
      exWrapCrashed.packed = true ∧ exWrapCrashed.pttl ≤ 0 ∧ exWrapCrashed.bttl > 0 ∧
      exWrapCrashed.newv = none ∧
      tick 0 exWrapCrashed =
        some { view := some ⟨0, "C", ""⟩, newv := none, packed := false, pttl := 0, bttl := 0,
               idle_servers := [] } ∧
      ¬ ∃ vs1 x, tick 0 exWrapCrashed = some vs1 ∧
          vs1.view = some ⟨18446744073709551615 + 1, "C", x⟩ := by
  have h : tick 0 exWrapCrashed =
      some { view := some ⟨0, "C", ""⟩, newv := none, packed := false, pttl := 0, bttl := 0,
             idle_servers := [] } := by decide
  refine ⟨exWrapCrashed_reachable, rfl, rfl, by decide, by decide, rfl, h, ?_⟩
  rintro ⟨vs1, x, e, hv⟩
  rw [h] at e
  cases Option.some.inj e
  simp at hv

/-- C9 amended: in a state with view `{n, A, B}`, `B` non-empty, `packed` true, primary ttl
at most 0, backup ttl positive and no pending view, a tick completes with the view
`{(n+1) mod 2^64, B, x}`, numbered with the successor of `n` as a Go `uint`, and
`packed` false, where `x` is empty and the pool is empty when the
aged idle pool is empty, and otherwise `x` is a member of the aged idle pool and the
pool afterwards is the aged pool without `x`. -/
theorem C9_tick_promotes_backup (pick : Nat) (vs : ViewServer) (n : Nat) (A B : String)
    (hv : vs.view = some ⟨n, A, B⟩) (hB : B ≠ "") (hk : vs.packed = true)
    (hp : vs.pttl ≤ 0) (hb : vs.bttl > 0) (hn : vs.newv = none) :
    ∃ vs1 x, tick pick vs = some vs1 ∧ vs1.view = some ⟨(n + 1) % uintSize, B, x⟩ ∧
      vs1.packed = false ∧
      (((cleanup_extra_servers vs).idle_servers = [] ∧ x = "" ∧ vs1.idle_servers = []) ∨
        ((cleanup_extra_servers vs).idle_servers ≠ [] ∧
          x ∈ mapKeys (cleanup_extra_servers vs).idle_servers ∧
          vs1.idle_servers = mapDelete (cleanup_extra_servers vs).idle_servers x ∧
          x ∉ mapKeys vs1.idle_servers)) := by
  obtain ⟨view0, newv0, packed0, pttl0, bttl0, idle0⟩ := vs
  simp only at hv hk hp hb hn
  subst hv hk hn
  have h2 : ¬(pttl0 > 0 ∧ bttl0 ≤ 0) := fun h => absurd h.1 (not_lt.mpr hp)
  simp only [tick, switch_if_packed, cleanup_extra_servers, if_true]
  rw [switch_to_new_view_eq pick _ ⟨n, A, B⟩ rfl rfl]
  simp only [hB, false_and, if_false, h2, hp, hb, and_self, gt_iff_lt, if_true,
    Option.map_some', Option.some_bind]
  generalize idle0.filterMap (fun e => if e.2 ≤ 0 then none else some (e.1, e.2 - 1))
    = aged
  refine ⟨_, _, rfl, rfl, rfl, ?_⟩
  by_cases hne : aged = []
  · subst hne
    exact Or.inl ⟨rfl, rfl, rfl⟩
  · obtain ⟨m1, m2⟩ := get_and_del_of_ne_nil pick _ hne
    exact Or.inr ⟨hne, m1, m2, get_and_del_removed pick _ hne⟩

/-- An instance of the amended C9, the example of the claim: from `{2, "A", "B"}` acknowledged, with
primary ttl 0 and an empty pool, a tick yields `{3, "B", ""}`. -/
theorem C9_tick_promotes_backup_witness :
    tick 0 exCrashed =
        some { view := some ⟨3, "B", ""⟩, newv := none, packed := false, pttl := 0,
               bttl := 0, idle_servers := [] } ∧
      ∃ vs1 x, tick 0 exCrashed = some vs1 ∧ vs1.view = some ⟨3, "B", x⟩ ∧
        vs1.packed = false ∧
        (((cleanup_extra_servers exCrashed).idle_servers = [] ∧ x = "" ∧
            vs1.idle_servers = []) ∨
          ((cleanup_extra_servers exCrashed).idle_servers ≠ [] ∧
            x ∈ mapKeys (cleanup_extra_servers exCrashed).idle_servers ∧
            vs1.idle_servers = mapDelete (cleanup_extra_servers exCrashed).idle_servers x ∧
            x ∉ mapKeys vs1.idle_servers)) :=
  ⟨by decide,
    C9_tick_promotes_backup 0 exCrashed 2 "A" "B" rfl (by decide) rfl (by decide)
      (by decide) rfl⟩

/-- C10 as stated fails at the largest view number: `exWrapBothDead`, reached from the
freshly started server with `DeadPings = 5`, has view `{2^64 - 1, "B", "C"}`, both
ttls 0 and no pending view; `switch_to_new_view` commits the view `{0, "", ""}`, whose
number is not `2^64`. -/
theorem C10_commit_number_wraps :
    Reachable 5 exWrapBothDead ∧
      exWrapBothDead.view = some ⟨18446744073709551615, "B", "C"⟩ ∧
      exWrapBothDead.newv = none ∧ exWrapBothDead.pttl ≤ 0 ∧ exWrapBothDead.bttl ≤ 0 ∧
      switch_to_new_view 0 exWrapBothDead =
        some ({ exWrapBothDead with view := some ⟨0, "", ""⟩ }, true) ∧
      switch_to_new_view 0 exWrapBothDead ≠
        some ({ exWrapBothDead with view := some ⟨18446744073709551615 + 1, "", ""⟩ }, true) :=
  ⟨exWrapBothDead_reachable, rfl, rfl, by decide, by decide, by decide, by decide⟩

/-- C10 amended: in a state with a view numbered `n` and no pending view, with both ttls at
most 0 and with a backup or an idle server, `switch_to_new_view` commits the view
`{(n+1) mod 2^64, "", ""}`, numbered with the successor of `n` as a Go `uint`, and changes
nothing else: the idle pool keeps all its servers. -/
theorem C10_both_dead_commits_empty_view (pick : Nat) (vs : ViewServer) (view : View)
    (hv : vs.view = some view) (hn : vs.newv = none) (hp : vs.pttl ≤ 0) (hb : vs.bttl ≤ 0)
    (hc : view.Backup ≠ "" ∨ vs.idle_servers ≠ []) :
    switch_to_new_view pick vs =
      some ({ vs with view := some ⟨(view.Viewnum + 1) % uintSize, "", ""⟩ }, true) := by
  rw [switch_to_new_view_eq pick vs view hv hn]
  have h1 : ¬(view.Backup = "" ∧ vs.idle_servers = []) := by
    rintro ⟨h2, h3⟩
    rcases hc with hc | hc
    · exact hc h2
    · exact hc h3
  have h2 : ¬(vs.pttl > 0 ∧ vs.bttl ≤ 0) := fun h => absurd h.1 (not_lt.mpr hp)
  have h3 : ¬(vs.pttl ≤ 0 ∧ vs.bttl > 0) := fun h => absurd h.2 (not_lt.mpr hb)
  rw [if_neg h1, if_neg h2, if_neg h3, if_pos ⟨hp, hb⟩]

/-- An instance of the amended C10: in `exBothDead` the view `{3, "", ""}` is committed and `"C"`
stays idle. -/
theorem C10_both_dead_commits_empty_view_witness :
    exBothDead.pttl ≤ 0 ∧ exBothDead.bttl ≤ 0 ∧ exBothDead.idle_servers = [("C", 3)] ∧
      switch_to_new_view 0 exBothDead =
        some ({ exBothDead with view := some ⟨3, "", ""⟩ }, true) :=
  ⟨by decide, by decide, rfl,
    C10_both_dead_commits_empty_view 0 exBothDead ⟨2, "A", "B"⟩ rfl rfl (by decide)
      (by decide) (Or.inl (by decide))⟩

/-- C11: from a reachable state in which a view exists, after an operation (a `Ping`
or a tick) that completes the view has as primary the previous primary, the previous
backup or the empty string: no server that was only idle becomes primary in one
step. -/
theorem C11_primary_comes_from_the_view (d : Int) (pick : Nat) (op : Op)
    (vs vs1 : ViewServer) (view : View) (hr : Reachable d vs) (hv : vs.view = some view)
    (hs : step d pick vs op = some vs1) :
    ∃ view1, vs1.view = some view1 ∧
      (view1.Primary = view.Primary ∨ view1.Primary = view.Backup ∨ view1.Primary = "") := by
  have hn := (reachable_inv d vs hr).newv_none
  rcases step_view_change d pick op vs vs1 hn hs with h | ⟨h, -⟩ | ⟨-, vs0, r, h0, hr, h1⟩
  · exact ⟨view, by rw [h, hv], Or.inl rfl⟩
  · rw [hv] at h; cases h
  · have hv0 : vs0.view = some view := by
      rcases h0 with ⟨rfl, -⟩ | ⟨rfl, -⟩ <;> exact hv
    have hn0 : vs0.newv = none := by
      rcases h0 with ⟨rfl, -⟩ | ⟨rfl, -⟩ <;> exact hn
    rw [switch_to_new_view_eq pick vs0 view hv0 hn0] at hr
    rw [h1]
    split_ifs at hr
    · simp at hr
    · simp only [Option.some.injEq, Prod.mk.injEq, and_true] at hr
      subst hr
      exact ⟨_, rfl, Or.inl rfl⟩
    · simp only [Option.some.injEq, Prod.mk.injEq, and_true] at hr
      subst hr
      exact ⟨_, rfl, Or.inr (Or.inl rfl)⟩
    · simp only [Option.some.injEq, Prod.mk.injEq, and_true] at hr
      subst hr
      exact ⟨_, rfl, Or.inr (Or.inr rfl)⟩
    · simp at hr

/-- Two instances of C11: the tick from `exAcked` keeps the primary `"A"`, and the
restart of the primary `"B"` in `exWrap` promotes the backup `"C"`; the idle servers
`"B"` and `"A"` do not become primary. -/
theorem C11_primary_comes_from_the_view_witness :
    (Reachable 5 exAcked ∧ exAcked.view = some ⟨1, "A", ""⟩ ∧
      step 5 0 exAcked Op.tick = some exCommitted ∧
      ∃ view1, exCommitted.view = some view1 ∧
        (view1.Primary = "A" ∨ view1.Primary = "" ∨ view1.Primary = "")) ∧
    (Reachable 5 exWrap ∧ step 5 0 exWrap (Op.ping "B" 0) = some exWrapped ∧
      ∃ view1, exWrapped.view = some view1 ∧
        (view1.Primary = "B" ∨ view1.Primary = "C" ∨ view1.Primary = "")) :=
  ⟨⟨exAcked_reachable, rfl, by decide,
      C11_primary_comes_from_the_view 5 0 Op.tick exAcked exCommitted ⟨1, "A", ""⟩
        exAcked_reachable rfl (by decide)⟩,
    ⟨ReachableNE.reachable 5 exWrap exWrap_reachableNE, by decide,
      C11_primary_comes_from_the_view 5 0 (Op.ping "B" 0) exWrap exWrapped
        ⟨18446744073709551615, "B", "C"⟩ (ReachableNE.reachable 5 exWrap exWrap_reachableNE)
        rfl (by decide)⟩⟩

/-- C12: on the freshly started server `Ping(c, 0)` completes for every caller `c`,
returns the view `{1, c, ""}` and leaves the state with that view, `packed` false,
the primary ttl at `DeadPings` and the idle pool empty. -/
theorem C12_first_Ping_creates_view_one (d : Int) (pick : Nat) (c : String) :
    Ping d pick StartServer c 0 =
      some ({ view := some ⟨1, c, ""⟩, newv := none, packed := false, pttl := d, bttl := 0,
              idle_servers := [] }, ⟨1, c, ""⟩) := by
  simp [Ping, Ping_handle, Ping_refresh, StartServer, create_view]

/-- C13: `Get` leaves the state as it is and returns the current view when there is
one and the view `{0, "", ""}` when there is none; so a second `Get` right after the
first returns the same view. -/
theorem C13_Get_reads_only (vs : ViewServer) :
    (Get_handler vs).1 = vs ∧
      (∀ view, vs.view = some view → (Get_handler vs).2 = view) ∧
      (vs.view = none → (Get_handler vs).2 = ⟨0, "", ""⟩) ∧
      (Get_handler (Get_handler vs).1).2 = (Get_handler vs).2 ∧
      (Get_handler vs).2 = Get vs := by
  unfold Get_handler Get
  cases h : vs.view with
  | none => simp [create_view, h]
  | some view => simp [h]

/-- Two instances of C13: before any `Ping` the reply is `{0, "", ""}`, and in
`exAcked` it is the current view `{1, "A", ""}`; the state is the same afterwards. -/
theorem C13_Get_reads_only_witness :
    (Get_handler StartServer = (StartServer, ⟨0, "", ""⟩)) ∧
      (Get_handler exAcked = (exAcked, ⟨1, "A", ""⟩)) :=
  ⟨Prod.ext (C13_Get_reads_only StartServer).1 ((C13_Get_reads_only StartServer).2.2.1 rfl),
    Prod.ext (C13_Get_reads_only exAcked).1 ((C13_Get_reads_only exAcked).2.1 ⟨1, "A", ""⟩ rfl)⟩

/-- C14, evaluated on the code: with `DeadPings = 5` the run `Ping("A",0)`,
`Ping("A",0)` of a freshly started server completes in a reachable state whose view
is `{1, "A", ""}` and whose idle pool contains the primary `"A"`. -/
theorem C14_primary_in_idle_pool :
    ∃ vs, run 5 StartServer [(0, Op.ping "A" 0), (0, Op.ping "A" 0)] = some vs ∧
      Reachable 5 vs ∧ vs.view = some ⟨1, "A", ""⟩ ∧ "A" ∈ mapKeys vs.idle_servers := by
  have h : run 5 StartServer [(0, Op.ping "A" 0), (0, Op.ping "A" 0)] =
      some { view := some ⟨1, "A", ""⟩, newv := none, packed := false, pttl := 5, bttl := 0,
             idle_servers := [("A", 5)] } := by decide
  exact ⟨_, h, reachable_run 5 _ StartServer _ Reachable.start h, rfl, by simp [mapKeys]⟩

/-- C15 as stated fails: in `exLastTick` (view `{2, "A", "B"}`, `packed` true, primary
ttl 1, backup ttl 3) the tick of the code leaves the view `{2, "A", "B"}` with
`packed` true, while the steps in the order of the claim give the view
`{3, "B", ""}` with `packed` false. -/
theorem C15_tick_is_not_ttls_first :
    tick 0 exLastTick =
        some { view := some ⟨2, "A", "B"⟩, newv := none, packed := true, pttl := 0, bttl := 2,
               idle_servers := [] } ∧
      tick_ttls_first 0 exLastTick =
        some { view := some ⟨3, "B", ""⟩, newv := none, packed := false, pttl := 0, bttl := 2,
               idle_servers := [] } ∧
      tick 0 exLastTick ≠ tick_ttls_first 0 exLastTick := by
  decide

/-- C15 amended: in a state with a view and `packed` true, the state after a tick is
obtained by (1) ageing the idle pool, (2) attempting the transition with the ttls as
they were before the tick, `packed` becoming false when a change is reported, and
(3) setting each ttl to 0 when the role is empty in the view after the attempt and
otherwise decrementing it when positive. In particular, with no pending view, a
primary ttl of 1 and a positive backup ttl, the tick leaves the view and `packed` as
they are and the primary ttl at 0: the expiry is seen by the next attempt only. -/
theorem C15_tick_attempts_before_ttls (pick : Nat) (vs : ViewServer) (view : View)
    (hv : vs.view = some view) (hk : vs.packed = true) :
    (∃ r view1, switch_to_new_view pick (cleanup_extra_servers vs) = some r ∧
        (cleanup_extra_servers vs).pttl = vs.pttl ∧
        (cleanup_extra_servers vs).bttl = vs.bttl ∧
        r.1.view = some view1 ∧
        tick pick vs =
          some (tick_ttls (if r.2 then { r.1 with packed := false } else r.1) view1)) ∧
    (vs.newv = none → vs.pttl = 1 → 0 < vs.bttl →
      ∃ vs1, tick pick vs = some vs1 ∧ vs1.view = vs.view ∧ vs1.packed = true ∧
        vs1.pttl = 0) := by
  constructor
  · obtain ⟨r, view1, hr, hv1⟩ :=
      switch_to_new_view_total pick (cleanup_extra_servers vs) view hv
    refine ⟨r, view1, hr, rfl, rfl, hv1, ?_⟩
    have hk1 : (cleanup_extra_servers vs).packed = true := hk
    simp only [tick, hv, switch_if_packed, hk1, if_true, hr, Option.map_some',
      Option.some_bind]
    obtain ⟨r1, r2⟩ := r
    simp only at hv1
    cases r2 <;> simp [hv1]
  · intro hn hp hb
    have hn1 : (cleanup_extra_servers vs).newv = none := hn
    have hk1 : (cleanup_extra_servers vs).packed = true := hk
    have hp1 : (cleanup_extra_servers vs).pttl = 1 := hp
    have hb1 : 0 < (cleanup_extra_servers vs).bttl := hb
    have hv1 : (cleanup_extra_servers vs).view = some view := hv
    have e : switch_to_new_view pick (cleanup_extra_servers vs) =
        some (cleanup_extra_servers vs, false) := by
      rw [switch_to_new_view_eq pick (cleanup_extra_servers vs) view hv1 hn1]
      have c1 : ¬((cleanup_extra_servers vs).pttl > 0 ∧ (cleanup_extra_servers vs).bttl ≤ 0) :=
        fun h => absurd hb1 (not_lt.mpr h.2)
      have c2 : ¬((cleanup_extra_servers vs).pttl ≤ 0 ∧ (cleanup_extra_servers vs).bttl > 0) :=
        fun h => by rw [hp1] at h; exact absurd h.1 (by decide)
      have c3 : ¬((cleanup_extra_servers vs).pttl ≤ 0 ∧ (cleanup_extra_servers vs).bttl ≤ 0) :=
        fun h => by rw [hp1] at h; exact absurd h.1 (by decide)
      rw [if_neg c1, if_neg c2, if_neg c3]
      split_ifs <;> rfl
    refine ⟨tick_ttls (cleanup_extra_servers vs) view, ?_, rfl, hk, ?_⟩
    · simp only [tick, hv, switch_if_packed, hk1, if_true, e, Option.map_some',
        Bool.false_eq_true, if_false, hv1, Option.some_bind]
    · simp only [tick_ttls, hp1]
      split_ifs <;> simp_all

/-- An instance of the amended C15: the tick from `exLastTick` leaves the view
`{2, "A", "B"}` and the primary ttl at 0. -/
theorem C15_tick_attempts_before_ttls_witness :
    exLastTick.view = some ⟨2, "A", "B"⟩ ∧ exLastTick.packed = true ∧ exLastTick.pttl = 1 ∧
      ∃ vs1, tick 0 exLastTick = some vs1 ∧ vs1.view = exLastTick.view ∧
        vs1.packed = true ∧ vs1.pttl = 0 :=
  ⟨rfl, rfl, rfl,
    (C15_tick_attempts_before_ttls 0 exLastTick ⟨2, "A", "B"⟩ rfl rfl).2 rfl rfl (by decide)⟩

/-- C16 as stated fails: an idle server whose ttl is 1 is not evicted by
`cleanup_extra_servers`; it stays in the pool with ttl 0. -/
theorem C16_ttl_one_is_kept :
    (cleanup_extra_servers
        { view := none, newv := none, packed := false, pttl := 0, bttl := 0,
          idle_servers := [("B", 1)] }).idle_servers = [("B", 0)] ∧
      ¬ (∀ e ∈ (cleanup_extra_servers
          { view := none, newv := none, packed := false, pttl := 0, bttl := 0,
            idle_servers := [("B", 1)] }).idle_servers, e.2 > 0) := by
  decide

/-- C16 amended: `cleanup_extra_servers` evicts every idle server whose ttl is at most
0 and decrements the ttl of every other one by 1, touching nothing else. Afterwards
every remaining server has a ttl that is at least 0 and is its previous ttl minus 1,
the remaining servers are those whose previous ttl was positive, and (the keys of a
map being distinct) no server whose previous ttl was at most 0 remains; a server
whose previous ttl was 1 remains with ttl 0. -/
theorem C16_cleanup_evicts_nonpositive (vs : ViewServer) :
    (∀ k t, (k, t) ∈ (cleanup_extra_servers vs).idle_servers ↔
      (k, t + 1) ∈ vs.idle_servers ∧ 0 ≤ t) ∧
    (∀ k, k ∈ mapKeys (cleanup_extra_servers vs).idle_servers ↔
      ∃ t, (k, t) ∈ vs.idle_servers ∧ 0 < t) ∧
    ((mapKeys vs.idle_servers).Nodup → ∀ k t, (k, t) ∈ vs.idle_servers → t ≤ 0 →
      k ∉ mapKeys (cleanup_extra_servers vs).idle_servers) ∧
    (∀ k, (k, 1) ∈ vs.idle_servers → (k, 0) ∈ (cleanup_extra_servers vs).idle_servers) ∧
    (cleanup_extra_servers vs).view = vs.view ∧ (cleanup_extra_servers vs).newv = vs.newv ∧
    (cleanup_extra_servers vs).packed = vs.packed ∧
    (cleanup_extra_servers vs).pttl = vs.pttl ∧ (cleanup_extra_servers vs).bttl = vs.bttl := by
  have hkeys : ∀ k, k ∈ mapKeys (cleanup_extra_servers vs).idle_servers ↔
      ∃ t, (k, t) ∈ vs.idle_servers ∧ 0 < t := by
    intro k
    simp only [mapKeys, List.mem_map, Prod.exists, exists_and_right, exists_eq_right]
    constructor
    · rintro ⟨t, ht⟩
      obtain ⟨h1, h2⟩ := (mem_cleanup_extra_servers vs k t).mp ht
      exact ⟨t + 1, h1, by omega⟩
    · rintro ⟨t, h1, h2⟩
      refine ⟨t - 1, (mem_cleanup_extra_servers vs k (t - 1)).mpr ⟨?_, by omega⟩⟩
      have e : t - 1 + 1 = t := by ring
      rw [e]
      exact h1
  refine ⟨mem_cleanup_extra_servers vs, hkeys, ?_, ?_, rfl, rfl, rfl, rfl, rfl⟩
  · intro hnd k t hm ht hk
    obtain ⟨t1, hm1, ht1⟩ := (hkeys k).mp hk
    have := List.inj_on_of_nodup_map hnd hm hm1 rfl
    simp only [Prod.mk.injEq, true_and] at this
    omega
  · intro k hm
    exact (mem_cleanup_extra_servers vs k 0).mpr ⟨hm, le_refl 0⟩

/-- An instance of the amended C16 on the pool `B ↦ 1, C ↦ 0, D ↦ 3`: `"C"` is
evicted, `"B"` stays with ttl 0. -/
theorem C16_cleanup_evicts_nonpositive_witness :
    (cleanup_extra_servers
        { view := none, newv := none, packed := false, pttl := 0, bttl := 0,
          idle_servers := [("B", 1), ("C", 0), ("D", 3)] }).idle_servers =
        [("B", 0), ("D", 2)] ∧
      "C" ∉ mapKeys (cleanup_extra_servers
        { view := none, newv := none, packed := false, pttl := 0, bttl := 0,
          idle_servers := [("B", 1), ("C", 0), ("D", 3)] }).idle_servers :=
  ⟨by decide,
    (C16_cleanup_evicts_nonpositive
        { view := none, newv := none, packed := false, pttl := 0, bttl := 0,
          idle_servers := [("B", 1), ("C", 0), ("D", 3)] }).2.2.1
      (by decide) "C" 0 (by decide) (by decide)⟩

/-- C17 as stated fails at the largest view number: in `exWrapBothDead`, reached from
the freshly started server with `DeadPings = 5`, with view `{2^64 - 1, "B", "C"}`, no
pending view and both ttls 0, `switch_to_new_view` reports a change and the view it
commits is numbered 0, which is not one higher. -/
theorem C17_change_to_a_lower_number :
    Reachable 5 exWrapBothDead ∧
      exWrapBothDead.view = some ⟨18446744073709551615, "B", "C"⟩ ∧
      exWrapBothDead.newv = none ∧
      ∃ r, switch_to_new_view 0 exWrapBothDead = some (r, true) ∧
        r.view = some ⟨0, "", ""⟩ ∧ (0 : Nat) ≠ 18446744073709551615 + 1 :=
  ⟨exWrapBothDead_reachable, rfl, rfl, { exWrapBothDead with view := some ⟨0, "", ""⟩ },
    by decide, rfl, by decide⟩

/-- C17 amended: in a state with a view and no pending view, `switch_to_new_view` completes;
it reports no change exactly when the backup is empty and the idle pool is empty, or
both ttls are positive, and then the state, so the view and the idle pool, is
unchanged; in every other case it reports a change and the view is numbered with
the successor of the current number as a Go `uint`, `(n+1) mod 2^64`: one higher, or
0 at the largest `uint`. -/
theorem C17_when_the_attempt_changes_nothing (pick : Nat) (vs : ViewServer) (view : View)
    (hv : vs.view = some view) (hn : vs.newv = none) :
    ∃ r, switch_to_new_view pick vs = some r ∧
      (r.2 = false ↔
        ((view.Backup = "" ∧ vs.idle_servers = []) ∨ (vs.pttl > 0 ∧ vs.bttl > 0))) ∧
      (r.2 = false → r.1 = vs) ∧
      (r.2 = true → ∃ p b, r.1.view = some ⟨(view.Viewnum + 1) % uintSize, p, b⟩) := by
  rw [switch_to_new_view_eq pick vs view hv hn]
  split_ifs with h1 h2 h3 h4
  · exact ⟨_, rfl, by simp [h1], fun _ => rfl, fun h => by simp at h⟩
  · refine ⟨_, rfl, ?_, fun h => by simp at h, fun _ => ⟨_, _, rfl⟩⟩
    simp only [Bool.true_eq_false, false_iff, not_or]
    exact ⟨h1, fun h => absurd h.2 (not_lt.mpr h2.2)⟩
  · refine ⟨_, rfl, ?_, fun h => by simp at h, fun _ => ⟨_, _, rfl⟩⟩
    simp only [Bool.true_eq_false, false_iff, not_or]
    exact ⟨h1, fun h => absurd h.1 (not_lt.mpr h3.1)⟩
  · refine ⟨_, rfl, ?_, fun h => by simp at h, fun _ => ⟨_, _, rfl⟩⟩
    simp only [Bool.true_eq_false, false_iff, not_or]
    exact ⟨h1, fun h => absurd h.1 (not_lt.mpr h4.1)⟩
  · refine ⟨_, rfl, ?_, fun _ => rfl, fun h => by simp at h⟩
    simp only [true_iff]
    right
    simp only [not_and, not_le, gt_iff_lt] at h2 h3 h4 ⊢
    by_cases hp : 0 < vs.pttl
    · exact ⟨hp, h2 hp⟩
    · have hp1 : vs.pttl ≤ 0 := not_lt.mp hp
      exact absurd (h4 hp1) (h3 hp1)

/-- Two instances of the amended C17: in `exBoth` both ttls are positive and the attempt changes
nothing; in `exBothDead` it commits view 3. -/
theorem C17_when_the_attempt_changes_nothing_witness :
    (∃ r, switch_to_new_view 0 exBoth = some r ∧ r.2 = false ∧ r.1 = exBoth) ∧
      (∃ r, switch_to_new_view 0 exBothDead = some r ∧ r.2 = true ∧
        ∃ p b, r.1.view = some ⟨3, p, b⟩) := by
  constructor
  · obtain ⟨r, h1, h2, h3, -⟩ :=
      C17_when_the_attempt_changes_nothing 0 exBoth ⟨2, "A", "B"⟩ rfl rfl
    have hf : r.2 = false := h2.mpr (Or.inr (by decide))
    exact ⟨r, h1, hf, h3 hf⟩
  · obtain ⟨r, h1, h2, -, h4⟩ :=
      C17_when_the_attempt_changes_nothing 0 exBothDead ⟨2, "A", "B"⟩ rfl rfl
    have ht : r.2 = true := by
      cases hr : r.2 with
      | true => rfl
      | false =>
        have := h2.mp hr
        revert this
        decide
    exact ⟨r, h1, ht, h4 ht⟩

/-- C18 as stated fails: with `DeadPings = 5` the run below, which includes `Ping`s from
the empty caller, reaches `exDeadAcked`, whose view is `{3, "", ""}` with `packed`
true. The tick whose range yields the empty string first attempts a transition whose
proposal has the same primary and backup as the current view, both empty; the
attempt reports a change and the view `{4, "", ""}` is committed. -/
theorem C18_same_roles_are_committed :
    run 5 StartServer
        [(0, Op.ping "A" 0), (0, Op.ping "B" 0), (0, Op.ping "A" 1), (0, Op.tick),
         (0, Op.ping "A" 2), (0, Op.ping "" 0), (0, Op.ping "A" 0), (0, Op.ping "" 3)] =
        some exDeadAcked ∧
      Reachable 5 exDeadAcked ∧
      switch_to_new_view 1 (cleanup_extra_servers exDeadAcked) =
        some ({ view := some ⟨4, "", ""⟩, newv := none, packed := true, pttl := 5, bttl := 0,
                idle_servers := [("A", 4)] }, true) ∧
      step 5 1 exDeadAcked Op.tick =
        some { view := some ⟨4, "", ""⟩, newv := none, packed := false, pttl := 0, bttl := 0,
               idle_servers := [("A", 4)] } := by
  have h : run 5 StartServer
      [(0, Op.ping "A" 0), (0, Op.ping "B" 0), (0, Op.ping "A" 1), (0, Op.tick),
       (0, Op.ping "A" 2), (0, Op.ping "" 0), (0, Op.ping "A" 0), (0, Op.ping "" 3)] =
      some exDeadAcked := by decide
  exact ⟨h, reachable_run 5 _ StartServer _ Reachable.start h, by decide, by decide⟩

/-- C18 amended: in every state reached from the freshly started server with non-empty
callers only, a transition attempt made with `packed` true that reports a change
commits a view, numbered with the successor of the current number as a Go `uint`,
whose primary or backup differs from the current one; and whenever an operation that completes leaves a view different from the one
before, that view is numbered with that successor and its primary or its backup differs. -/
theorem C18_committed_transition_changes_roles (d : Int) (pick : Nat) (vs : ViewServer)
    (view : View) (hr : ReachableNE d vs) (hv : vs.view = some view) :
    (vs.packed = true → ∀ r, switch_to_new_view pick vs = some (r, true) →
      ∃ view1, r.view = some view1 ∧ view1.Viewnum = (view.Viewnum + 1) % uintSize ∧
        (view1.Primary ≠ view.Primary ∨ view1.Backup ≠ view.Backup)) ∧
    (∀ op vs1 view1, step d pick vs op = some vs1 → vs1.view = some view1 → view1 ≠ view →
      view1.Viewnum = (view.Viewnum + 1) % uintSize ∧
        (view1.Primary ≠ view.Primary ∨ view1.Backup ≠ view.Backup)) := by
  have hi := reachableNE_inv d vs hr
  constructor
  · intro hk r hs
    exact switch_to_new_view_changes_roles pick vs r view hi hv hk hs
  · intro op vs1 view1 hs hv1 hne
    rcases step_view_change d pick op vs vs1 hi.newv_none hs with h | ⟨h, -⟩ |
      ⟨hk, vs0, r, h0, hsw, h1⟩
    · rw [h, hv] at hv1
      exact absurd (Option.some.inj hv1).symm hne
    · rw [hv] at h; cases h
    · have hi0 : InvNE vs0 := by
        rcases h0 with ⟨rfl, -⟩ | ⟨rfl, -⟩
        · exact InvNE_of_same vs _ hi rfl rfl rfl (fun _ hm => hm)
        · exact InvNE_of_same vs _ hi rfl rfl rfl (cleanup_keys_subset vs)
      have hv0 : vs0.view = some view := by
        rcases h0 with ⟨rfl, -⟩ | ⟨rfl, -⟩ <;> exact hv
      have hk0 : vs0.packed = true := by
        rcases h0 with ⟨rfl, -⟩ | ⟨rfl, -⟩ <;> exact hk
      obtain ⟨w, hw, h2, h3⟩ :=
        switch_to_new_view_changes_roles pick vs0 r view hi0 hv0 hk0 hsw
      rw [h1, hw] at hv1
      cases Option.some.inj hv1
      exact ⟨h2, h3⟩

/-- An instance of the amended C18: the tick from `exAcked` commits `{2, "A", "B"}`,
whose backup differs from the empty backup of `{1, "A", ""}`. -/
theorem C18_committed_transition_changes_roles_witness :
    ReachableNE 5 exAcked ∧ step 5 0 exAcked Op.tick = some exCommitted ∧
      exCommitted.view = some ⟨2, "A", "B"⟩ ∧
      ((2 : Nat) = (1 + 1) % uintSize ∧ ("A" ≠ "A" ∨ "B" ≠ "")) :=
  ⟨exAcked_reachableNE, by decide, rfl,
    (C18_committed_transition_changes_roles 5 0 exAcked ⟨1, "A", ""⟩ exAcked_reachableNE
      rfl).2 Op.tick exCommitted ⟨2, "A", "B"⟩ (by decide) rfl (by decide)⟩

/-- C19: in a state reached from the freshly started server with non-empty callers
only, when the view has an empty primary `packed` (acknowledged) is false, and every
further run of ticks and `Ping`s from non-empty callers completes with the same view
and with `packed` false. -/
theorem C19_dead_view_is_final (d : Int) (vs : ViewServer) (view : View)
    (hr : ReachableNE d vs) (hv : vs.view = some view) (hp : view.Primary = "") :
    vs.packed = false ∧
    ∀ ops : List (Nat × Op), (∀ o ∈ ops, o.2.callerNonempty) →
      ∃ vs1, run d vs ops = some vs1 ∧ vs1.view = some view ∧ vs1.packed = false := by
  have hi := reachableNE_inv d vs hr
  have hk : vs.packed = false := hi.dead_unpacked view hv hp
  refine ⟨hk, fun ops => ?_⟩
  have hn := hi.newv_none
  clear hi hr
  induction ops generalizing vs with
  | nil => exact fun _ => ⟨vs, rfl, hv, hk⟩
  | cons o rest ih =>
    intro hc
    obtain ⟨pick, op⟩ := o
    obtain ⟨vs2, e, a1, a2, a3⟩ :=
      dead_view_step d pick op vs view hv hp hk hn (hc (pick, op) (List.mem_cons_self _ _))
    obtain ⟨vs1, b1, b2, b3⟩ :=
      ih vs2 (a1.trans hv) a2 a3 (fun o ho => hc o (List.mem_cons_of_mem _ ho))
    exact ⟨vs1, by simp only [run, e, Option.some_bind]; exact b1, b2, b3⟩

/-- An instance of C19: from `exDead`, whose view is `{3, "", ""}`, a tick, the restart
and the acknowledgment of `"A"` and another tick leave the view `{3, "", ""}` and
`packed` false. -/
theorem C19_dead_view_is_final_witness :
    ReachableNE 5 exDead ∧ exDead.view = some ⟨3, "", ""⟩ ∧ exDead.packed = false ∧
      ∃ vs1, run 5 exDead
          [(0, Op.tick), (0, Op.ping "A" 0), (0, Op.ping "A" 3), (0, Op.tick)] = some vs1 ∧
        vs1.view = some ⟨3, "", ""⟩ ∧ vs1.packed = false :=
  have h := C19_dead_view_is_final 5 exDead ⟨3, "", ""⟩ exDead_reachableNE rfl rfl
  ⟨exDead_reachableNE, rfl, h.1,
    h.2 [(0, Op.tick), (0, Op.ping "A" 0), (0, Op.ping "A" 3), (0, Op.tick)] (by decide)⟩

/-- C20: in every reachable state no view is pending, also after a `Get`; so
`do_view_switch` commits nothing there, a `Ping` with a view number other than 0 that
completes leaves the view as it is and no view pending, and a `Ping` from the primary
of the current view with the number of the current view, that number being other than
0, completes, returns that view and leaves `packed` true. -/
theorem C20_no_view_is_ever_pending (d : Int) (vs : ViewServer) (hr : Reachable d vs) :
    vs.newv = none ∧ (Get_handler vs).1.newv = none ∧ do_view_switch vs = (vs, false) ∧
    (∀ pick c n vs1 reply, n ≠ 0 → Ping d pick vs c n = some (vs1, reply) →
      vs1.view = vs.view ∧ vs1.newv = none) ∧
    (∀ pick view, vs.view = some view → view.Viewnum ≠ 0 →
      Ping d pick vs view.Primary view.Viewnum =
        some ({ vs with packed := true, pttl := d }, view)) := by
  have hn := (reachable_inv d vs hr).newv_none
  have hg : (Get_handler vs).1 = vs := by
    unfold Get_handler
    cases vs.view <;> rfl
  refine ⟨hn, by rw [hg, hn], by simp [do_view_switch, hn], ?_, ?_⟩
  · intro pick c n vs1 reply h0 h
    obtain ⟨a1, -, a3⟩ := Ping_summary d pick vs vs1 c n reply hn h
    refine ⟨?_, a1⟩
    rcases a3 with ⟨-, h1, -⟩ | ⟨view, -, ⟨h2, -⟩ | ⟨h2, -⟩⟩
    · exact absurd h1 h0
    · exact h2
    · exact absurd h2 h0
  · intro pick view hv h1
    obtain ⟨view0, newv0, packed0, pttl0, bttl0, idle0⟩ := vs
    simp only at hn hv
    subst hn hv
    simp [Ping, Ping_handle, Ping_refresh, do_view_switch, h1]

/-- An instance of C20: in `exPinged` no view is pending and `Ping("A",1)` from the
primary of view 1 leaves the view and sets `packed`. -/
theorem C20_no_view_is_ever_pending_witness :
    exPinged.newv = none ∧ do_view_switch exPinged = (exPinged, false) ∧
      Ping 5 0 exPinged "A" 1 = some (exAcked, ⟨1, "A", ""⟩) :=
  have hr : Reachable 5 exPinged :=
    reachable_run 5 [(0, Op.ping "A" 0), (0, Op.ping "B" 0)] StartServer exPinged
      Reachable.start (by decide)
  have h := C20_no_view_is_ever_pending 5 exPinged hr
  ⟨h.1, h.2.2.1, h.2.2.2.2 0 ⟨1, "A", ""⟩ rfl (by decide)⟩

end ViewService
